import Mathlib

/-!
Shallow embedding of the syncist Obsidian/Todoist sync plugin.

The first part models the task-line codec of `task-parser.ts` at the level of
character lists: every regex of the source is rendered as an explicit scanner
with the same greedy, first-match semantics that the JavaScript regexes have
on the patterns in question (none of those patterns ever needs backtracking,
because in each of them a greedy star is always followed by a character that
the starred class cannot match).  The second part models the reconciliation
engine of `sync-engine.ts`: external collaborators (the Todoist gateway and
the note vault) become explicit values, asynchronous calls become values of
an `Except` type, and each sync pass is a pure function from an engine state
to a result, a new state, and a trace of the external actions it performed.
-/

namespace Syncist

/-- The ASCII part of the JavaScript whitespace class used by the plugin's
regexes (the class written as a backslash followed by s). -/
def isJsWs (c : Char) : Bool :=
  c == ' ' || c == '\t' || c == '\n' || c == '\r' || c == '\x0b' || c == '\x0c'

/-- Characters matched by the hashtag class of `PATTERNS.hashtag`
(letters, digits, underscore, dash). -/
def isWordChar (c : Char) : Bool :=
  (('a' ≤ c) && (c ≤ 'z')) || (('A' ≤ c) && (c ≤ 'Z')) ||
  (('0' ≤ c) && (c ≤ '9')) || c == '_' || c == '-'

/-- Lowercase a character list, as JavaScript toLowerCase does on the
ASCII letters the plugin manipulates. -/
def lowerList (l : List Char) : List Char := l.map Char.toLower

/-- Emoji glyph of `PATTERNS.dueDate`. -/
def dueGlyph : Char := '📅'

/-- Emoji glyph of `PATTERNS.scheduledDate`. -/
def schedGlyph : Char := '⏳'

/-- Emoji glyph of `PATTERNS.startDate`. -/
def startGlyph : Char := '🛫'

/-- Emoji glyph of `PATTERNS.doneDate`. -/
def doneGlyph : Char := '✅'

/-- Emoji glyph of `PATTERNS.highPriority`. -/
def highGlyph : Char := '⏫'

/-- Emoji glyph of `PATTERNS.mediumPriority`. -/
def medGlyph : Char := '🔼'

/-- Emoji glyph of `PATTERNS.lowPriority`. -/
def lowGlyph : Char := '🔽'

/-- A matcher tries the pattern at the current position only, returning the
captured characters and the remainder of the input after the matched span. -/
def Matcher : Type := List Char → Option (List Char × List Char)

/-- Scan left to right for the first position at which the matcher succeeds,
returning the text before the match, the capture, and the text after the
match.  This is the search semantics of an unanchored JavaScript regex. -/
def splitFirst (f : Matcher) : List Char → Option (List Char × List Char × List Char)
  | [] =>
    match f [] with
    | some (a, r) => some ([], a, r)
    | none => none
  | c :: t =>
    match f (c :: t) with
    | some (a, r) => some ([], a, r)
    | none => (splitFirst f t).map fun x => (c :: x.1, x.2.1, x.2.2)

/-- First capture of the matcher anywhere in the input (regex `match`). -/
def scanFor (f : Matcher) (l : List Char) : Option (List Char) :=
  (splitFirst f l).map fun x => x.2.1

/-- Replace the first match by `repl` (JavaScript `replace` without the
global flag); the input is returned unchanged when there is no match. -/
def replaceFirst (f : Matcher) (repl : List Char) (l : List Char) : List Char :=
  match splitFirst f l with
  | some (p, _, r) => p ++ repl ++ r
  | none => l

/-- Fuelled worker for global replacement. -/
def replaceAllGo (f : Matcher) (repl : List Char) : Nat → List Char → List Char
  | 0, l => l
  | Nat.succ n, l =>
    match splitFirst f l with
    | some (p, _, r) => p ++ repl ++ replaceAllGo f repl n r
    | none => l

/-- Replace every match by `repl`, continuing after each matched span
(JavaScript `replace` with the global flag).  The fuel is enough for every
matcher that consumes at least one character per match, which holds for all
the global patterns of the source. -/
def replaceAll (f : Matcher) (repl : List Char) (l : List Char) : List Char :=
  replaceAllGo f repl (l.length + 1) l

/-- Match the given literal characters case-insensitively at the current
position.  This is the behaviour of the regex the source builds by escaping
the sync tag (`escapeRegex`) and compiling it with the `i` flag: the escaped
pattern matches exactly the literal tag, ignoring case. -/
def tryLitCI (pat : List Char) : Matcher := fun l =>
  if lowerList (l.take pat.length) = lowerList pat then
    some (l.take pat.length, l.drop pat.length)
  else none

/-- Consume the exact given characters. -/
def expectChars : List Char → List Char → Option (List Char)
  | [], l => some l
  | _ :: _, [] => none
  | p :: ps, c :: t => if c = p then expectChars ps t else none

/-- Characters of the opening of the identifier comment. -/
def idOpenChars : List Char := ['<', '!', '-', '-']

/-- Characters of the label inside the identifier comment, colon included. -/
def idLabelChars : List Char := ['t', 'o', 'd', 'o', 'i', 's', 't', '-', 'i', 'd', ':']

/-- Characters of the closing of the identifier comment. -/
def idCloseChars : List Char := ['-', '-', '>']

/-- Matcher for `PATTERNS.todoistId`: the HTML-comment identifier with
optional whitespace and a nonempty digit capture. -/
def tryTodoistId : Matcher := fun l =>
  (expectChars idOpenChars l).bind fun r1 =>
  (expectChars idLabelChars (r1.dropWhile isJsWs)).bind fun r2 =>
  if (r2.dropWhile isJsWs).takeWhile Char.isDigit = [] then none
  else
    (expectChars idCloseChars
      (((r2.dropWhile isJsWs).dropWhile Char.isDigit).dropWhile isJsWs)).bind fun r4 =>
    some ((r2.dropWhile isJsWs).takeWhile Char.isDigit, r4)

/-- Match exactly a date of shape dddd-dd-dd, capturing the ten characters. -/
def tryDate10 : Matcher := fun l =>
  match l with
  | y1 :: y2 :: y3 :: y4 :: s1 :: m1 :: m2 :: s2 :: d1 :: d2 :: r =>
    if y1.isDigit && y2.isDigit && y3.isDigit && y4.isDigit && s1 == '-' &&
       m1.isDigit && m2.isDigit && s2 == '-' && d1.isDigit && d2.isDigit then
      some ([y1, y2, y3, y4, s1, m1, m2, s2, d1, d2], r)
    else none
  | _ => none

/-- Whether a character list is exactly a date of shape dddd-dd-dd (the
well-formedness of a serialized due date). -/
def validDate10 (d : List Char) : Bool :=
  match d with
  | [y1, y2, y3, y4, s1, m1, m2, s2, d1, d2] =>
    y1.isDigit && y2.isDigit && y3.isDigit && y4.isDigit && s1 == '-' &&
    m1.isDigit && m2.isDigit && s2 == '-' && d1.isDigit && d2.isDigit
  | _ => false

/-- Matcher for the emoji date patterns: the glyph, optional whitespace,
then a date, capturing the date. -/
def tryEmojiDate (glyph : Char) : Matcher := fun l =>
  match l with
  | c :: t => if c = glyph then tryDate10 (t.dropWhile isJsWs) else none
  | [] => none

/-- Matcher for a single-glyph pattern (the three priority patterns). -/
def tryGlyph (g : Char) : Matcher := fun l =>
  match l with
  | c :: t => if c = g then some ([c], t) else none
  | [] => none

/-- Test whether a character is one of the given characters. -/
def charIn (cs : List Char) (c : Char) : Bool := cs.contains c

/-- The fourteen character tests of `PATTERNS.textDueDate` (the literal
`due:` case-insensitively, then dddd-dd-dd). -/
def textDuePreds : List (Char → Bool) :=
  [charIn ['d', 'D'], charIn ['u', 'U'], charIn ['e', 'E'], charIn [':'],
   Char.isDigit, Char.isDigit, Char.isDigit, Char.isDigit, charIn ['-'],
   Char.isDigit, Char.isDigit, charIn ['-'], Char.isDigit, Char.isDigit]

/-- Match a fixed-length pattern given as a list of character tests,
returning the matched characters and the remainder. -/
def matchPreds : List (Char → Bool) → List Char → Option (List Char × List Char)
  | [], l => some ([], l)
  | _ :: _, [] => none
  | p :: ps, c :: t =>
    if p c then (matchPreds ps t).map fun x => (c :: x.1, x.2) else none

/-- Matcher for `PATTERNS.textDueDate`, capturing the ten date characters. -/
def tryTextDue : Matcher := fun l =>
  (matchPreds textDuePreds l).map fun x => (x.1.drop 4, x.2)

/-- Matcher for `PATTERNS.hashtag`: a hash sign followed by a nonempty run
of word characters, capturing the run. -/
def tryHashtag : Matcher := fun l =>
  match l with
  | c :: t =>
    if c = '#' then
      let w := t.takeWhile isWordChar
      if w = [] then none else some (w, t.dropWhile isWordChar)
    else none
  | [] => none

/-- Match `PATTERNS.task` against a whole line: optional indentation, a dash
or star bullet, whitespace, a checkbox whose glyph is a space, x or X, then
whitespace and the task content (which, because the regex ends in a dot-star
anchored at the end of the string, cannot contain a newline).  Returns the
checkbox glyph and the content capture. -/
def matchTaskLine (l : List Char) : Option (Char × List Char) :=
  match l.dropWhile isJsWs with
  | b :: r2 =>
    if b = '-' ∨ b = '*' then
      let w1 := r2.takeWhile isJsWs
      if w1 = [] then none
      else
        match r2.dropWhile isJsWs with
        | c0 :: cb :: c2 :: r4 =>
          if c0 = '[' ∧ (cb = ' ' ∨ cb = 'x' ∨ cb = 'X') ∧ c2 = ']' then
            let w2 := r4.takeWhile isJsWs
            let rest := r4.dropWhile isJsWs
            if w2 = [] then none
            else if rest.contains '\n' then none
            else some (cb, rest)
          else none
        | _ => none
    else none
  | [] => none

/-- Priority levels of the source enum (numeric values 1 to 4). -/
inductive TodoistPriority
  | NONE
  | LOW
  | MEDIUM
  | HIGH
deriving Repr, DecidableEq

/-- Numeric value of a priority, as in the source enum. -/
def TodoistPriority.toNat : TodoistPriority → Nat
  | .NONE => 1
  | .LOW => 2
  | .MEDIUM => 3
  | .HIGH => 4

/-- `extractPriority`: the three priority glyph tests in fixed order. -/
def extractPriority (content : List Char) : TodoistPriority :=
  if content.contains highGlyph then TodoistPriority.HIGH
  else if content.contains medGlyph then TodoistPriority.MEDIUM
  else if content.contains lowGlyph then TodoistPriority.LOW
  else TodoistPriority.NONE

/-- `extractDueDate`: emoji due date first, then emoji scheduled date, then
the textual form; first match wins. -/
def extractDueDate (content : List Char) : Option (List Char) :=
  match scanFor (tryEmojiDate dueGlyph) content with
  | some d => some d
  | none =>
    match scanFor (tryEmojiDate schedGlyph) content with
    | some d => some d
    | none => scanFor tryTextDue content

/-- Remove one leading hash sign, as the source's replace of the anchored
hash pattern does on the sync tag. -/
def stripLeadingHash (l : List Char) : List Char :=
  match l with
  | c :: t => if c = '#' then t else c :: t
  | [] => []

/-- Fuelled worker collecting successive hashtag captures, continuing after
each matched span, as the global exec loop of `extractLabels` does. -/
def collectHashtagsGo : Nat → List Char → List (List Char)
  | 0, _ => []
  | Nat.succ n, l =>
    match splitFirst tryHashtag l with
    | none => []
    | some (_, w, r) => w :: collectHashtagsGo n r

/-- All hashtag captures of the input, in order. -/
def collectHashtags (l : List Char) : List (List Char) :=
  collectHashtagsGo (l.length + 1) l

/-- `extractLabels`: every hashtag capture, lowercased, except the sync tag
name (the tag without its leading hash, lowercased). -/
def extractLabels (content syncTag : List Char) : List (List Char) :=
  let syncTagName := lowerList (stripLeadingHash syncTag)
  ((collectHashtags content).map lowerList).filter fun t => t ≠ syncTagName

/-- Worker for the whitespace-run collapse: the flag records whether the
previous character was whitespace, so that each run emits one space. -/
def collapseWsAux : Bool → List Char → List Char
  | _, [] => []
  | inRun, c :: t =>
    if isJsWs c then
      if inRun then collapseWsAux true t else ' ' :: collapseWsAux true t
    else c :: collapseWsAux false t

/-- Collapse every whitespace run into a single space (the global
whitespace-run replace at the end of `cleanTaskContent`). -/
def collapseWs (l : List Char) : List Char := collapseWsAux false l

/-- Trim whitespace from both ends (JavaScript trim on the characters the
plugin uses). -/
def trimWs (l : List Char) : List Char :=
  ((l.dropWhile isJsWs).reverse.dropWhile isJsWs).reverse

/-- Split a character list at every newline, as the JavaScript split on a
newline does (an empty input gives one empty segment). -/
def splitLinesL : List Char → List (List Char)
  | [] => [[]]
  | c :: t =>
    if c = '\n' then [] :: splitLinesL t
    else
      match splitLinesL t with
      | h :: r => (c :: h) :: r
      | [] => [[c]]

/-- Split a string into its lines. -/
def splitLines (s : String) : List String := (splitLinesL s.data).map String.mk

/-- Join strings with a separator, as the JavaScript array join does. -/
def joinSep (sep : String) : List String → String
  | [] => ""
  | [x] => x
  | x :: xs => x ++ sep ++ joinSep sep xs

/-- Collapse whitespace runs and trim, as the last step of
`cleanTaskContent`. -/
def normalizeWs (l : List Char) : List Char := trimWs (collapseWs l)

/-- `cleanTaskContent`: remove the identifier comment (first match), every
occurrence of the sync tag (global, case-insensitive), the first match of
each emoji date pattern and each priority glyph, the first textual due date,
then collapse whitespace and trim.  Hashtag labels are not removed. -/
def cleanTaskContent (content syncTag : List Char) : List Char :=
  let c1 := replaceFirst tryTodoistId [] content
  let c2 := replaceAll (tryLitCI syncTag) [] c1
  let c3 := replaceFirst (tryEmojiDate dueGlyph) [] c2
  let c4 := replaceFirst (tryEmojiDate schedGlyph) [] c3
  let c5 := replaceFirst (tryEmojiDate startGlyph) [] c4
  let c6 := replaceFirst (tryEmojiDate doneGlyph) [] c5
  let c7 := replaceFirst (tryGlyph highGlyph) [] c6
  let c8 := replaceFirst (tryGlyph medGlyph) [] c7
  let c9 := replaceFirst (tryGlyph lowGlyph) [] c8
  let c10 := replaceFirst tryTextDue [] c9
  normalizeWs c10

/-- The parsed-task record of `types.ts`. -/
structure ParsedObsidianTask where
  originalLine : String
  lineNumber : Nat
  filePath : String
  content : String
  isCompleted : Bool
  todoistId : Option String
  dueDate : Option String
  priority : TodoistPriority
  labels : List String
  description : String
  lastModified : Nat
deriving Repr, DecidableEq

/-- `parseTaskLine` on character lists: match the task pattern, require the
sync tag as a case-insensitive substring of the content capture, then
extract the identifier, due date, priority and labels and clean the
content. -/
def parseTaskLineL (line : List Char) (lineNumber : Nat) (filePath : String)
    (syncTag : List Char) (lastModified : Nat) : Option ParsedObsidianTask :=
  match matchTaskLine line with
  | none => none
  | some (cb, taskContent) =>
    if (scanFor (tryLitCI syncTag) taskContent).isSome then
      some
        { originalLine := String.mk line
          lineNumber := lineNumber
          filePath := filePath
          content := String.mk (cleanTaskContent taskContent syncTag)
          isCompleted := cb.toLower == 'x'
          todoistId := (scanFor tryTodoistId taskContent).map String.mk
          dueDate := (extractDueDate taskContent).map String.mk
          priority := extractPriority taskContent
          labels := (extractLabels taskContent syncTag).map String.mk
          description := ""
          lastModified := lastModified }
    else none

/-- `parseTaskLine` on strings. -/
def parseTaskLine (line : String) (lineNumber : Nat) (filePath : String)
    (syncTag : String) (lastModified : Nat) : Option ParsedObsidianTask :=
  parseTaskLineL line.data lineNumber filePath syncTag.data lastModified

/-- Serialized form of the priority (the emoji appended by
`buildTaskLine`). -/
def prioritySuffix : TodoistPriority → List Char
  | .HIGH => [' ', highGlyph]
  | .MEDIUM => [' ', medGlyph]
  | .LOW => [' ', lowGlyph]
  | .NONE => []

/-- `buildTaskLine` on character lists: checkbox, content, sync tag, labels,
priority emoji, due date block, identifier comment, in this order. -/
def buildTaskLineL (t : ParsedObsidianTask) (syncTag : List Char) : List Char :=
  ['-', ' ', '[', if t.isCompleted then 'x' else ' ', ']', ' '] ++
  t.content.data ++
  [' '] ++ syncTag ++
  (t.labels.foldl (fun acc lb => acc ++ [' ', '#'] ++ lb.data) []) ++
  prioritySuffix t.priority ++
  (match t.dueDate with
   | some d => [' ', dueGlyph, ' '] ++ d.data
   | none => []) ++
  (match t.todoistId with
   | some i => [' '] ++ idOpenChars ++ [' '] ++ idLabelChars ++ i.data ++ [' '] ++ idCloseChars
   | none => [])

/-- `buildTaskLine` on strings. -/
def buildTaskLine (t : ParsedObsidianTask) (syncTag : String) : String :=
  String.mk (buildTaskLineL t syncTag.data)

/-- `addTodoistIdToLine` on character lists: remove an existing identifier
comment, trim, append a fresh comment. -/
def addTodoistIdToLineL (line todoistId : List Char) : List Char :=
  trimWs (replaceFirst tryTodoistId [] line) ++
  [' '] ++ idOpenChars ++ [' '] ++ idLabelChars ++ todoistId ++ [' '] ++ idCloseChars

/-- `addTodoistIdToLine` on strings. -/
def addTodoistIdToLine (line : String) (todoistId : String) : String :=
  String.mk (addTodoistIdToLineL line.data todoistId.data)

/-- Serialized due-date block of `buildTaskLine` (empty when the task has
no due date). -/
def dsBlockL : Option (List Char) → List Char
  | some d => [' ', dueGlyph, ' '] ++ d
  | none => []

/-- Serialized identifier block of `buildTaskLine` (empty when the task has
no identifier). -/
def isBlockL : Option (List Char) → List Char
  | some i => [' '] ++ idOpenChars ++ [' '] ++ idLabelChars ++ i ++ [' '] ++ idCloseChars
  | none => []

/-- One space when the option is present, nothing otherwise: the whitespace
a removed optional block leaves behind in `cleanTaskContent`. -/
def spOpt : Option (List Char) → List Char
  | some _ => [' ']
  | none => []

/-- The content capture of a line built by `buildTaskLine` for a task
without labels: content, sync tag, priority emoji, due-date block and
identifier block. -/
def taskBody (C mname : List Char) (p : TodoistPriority)
    (dOpt iOpt : Option (List Char)) : List Char :=
  C ++ [' '] ++ ('#' :: mname) ++ prioritySuffix p ++ dsBlockL dOpt ++ isBlockL iOpt

/-- Matcher for the open-checkbox pattern (a bracketed whitespace). -/
def tryOpenBox : Matcher := fun l =>
  match l with
  | c0 :: c1 :: c2 :: r =>
    if c0 = '[' ∧ isJsWs c1 ∧ c2 = ']' then some (['[', c1, ']'], r) else none
  | _ => none

/-- Matcher for the checked-checkbox pattern (a bracketed x or X). -/
def tryCheckedBox : Matcher := fun l =>
  match l with
  | c0 :: c1 :: c2 :: r =>
    if c0 = '[' ∧ (c1 = 'x' ∨ c1 = 'X') ∧ c2 = ']' then some (['[', c1, ']'], r) else none
  | _ => none

/-- `updateTaskCompletion` on character lists: replace the first open
checkbox by a checked one, or the first checked checkbox by an open one. -/
def updateTaskCompletionL (line : List Char) (isCompleted : Bool) : List Char :=
  if isCompleted then replaceFirst tryOpenBox ['[', 'x', ']'] line
  else replaceFirst tryCheckedBox ['[', ' ', ']'] line

/-- `updateTaskCompletion` on strings. -/
def updateTaskCompletion (line : String) (isCompleted : Bool) : String :=
  String.mk (updateTaskCompletionL line.data isCompleted)

/-- A character that can stand between the brackets of a checkbox token:
whitespace (the open pattern) or x or X (the checked pattern). -/
def boxChar (c : Char) : Bool := isJsWs c || c == 'x' || c == 'X'

/-- Whether the character list starts with a checkbox token: a bracketed
whitespace (the pattern of the open checkbox) or a bracketed x or X (the
pattern of the checked checkbox). -/
def isBoxAt (l : List Char) : Bool :=
  match l with
  | c0 :: c1 :: c2 :: _ => c0 == '[' && boxChar c1 && c2 == ']'
  | _ => false

/-- Number of positions of the list at which a checkbox token starts. -/
def countBoxes : List Char → Nat
  | [] => 0
  | c :: t => (if isBoxAt (c :: t) then 1 else 0) + countBoxes t

/-- UTF-16 code units of a character, as JavaScript charCodeAt sees them. -/
def utf16Units (c : Char) : List Nat :=
  let n := c.toNat
  if n < 0x10000 then [n]
  else [0xD800 + (n - 0x10000) / 0x400, 0xDC00 + (n - 0x10000) % 0x400]

/-- Wrap an integer into the signed 32-bit range, as the JavaScript
bitwise-and of a number with itself does. -/
def toInt32 (n : Int) : Int := (n + 2 ^ 31) % 2 ^ 32 - 2 ^ 31

/-- One step of the hash of `generateContentHash`: shift left by five
within 32 bits, subtract, add the code unit, wrap. -/
def hashStep (h : Int) (c : Nat) : Int := toInt32 (toInt32 (h * 32) - h + c)

/-- Lowercase hexadecimal digits of a natural number. -/
def natToHex (n : Nat) : String := String.mk (Nat.toDigits 16 n)

/-- JavaScript toString with radix sixteen on a 32-bit integer: sign, then
the hexadecimal magnitude. -/
def intToHex (i : Int) : String :=
  if i < 0 then "-" ++ natToHex i.natAbs else natToHex i.toNat

/-- String rendering of a boolean in a JavaScript template. -/
def boolStr (b : Bool) : String := if b then "true" else "false"

/-- `generateContentHash`: the digest of content, completion, due date,
priority and joined labels. -/
def generateContentHash (t : ParsedObsidianTask) : String :=
  let data := t.content ++ "|" ++ boolStr t.isCompleted ++ "|" ++
    t.dueDate.getD "" ++ "|" ++ toString t.priority.toNat ++ "|" ++
    joinSep "," t.labels
  intToHex ((data.data.flatMap utf16Units).foldl hashStep 0)

/-- Number of leading whitespace characters of a line (the length of the
anchored whitespace capture in `extractDescription`). -/
def leadingWsCount (s : String) : Nat := (s.data.takeWhile isJsWs).length

/-- JavaScript trim of a string. -/
def trimString (s : String) : String := String.mk (trimWs s.data)

/-- Whether a line matches the task pattern. -/
def isTaskLine (s : String) : Bool := (matchTaskLine s.data).isSome

/-- The scan of the lines after a task in `extractDescription`: stop at the
first non-blank line indented at most as much as the task or at the first
task line, collect the trimmed non-blank lines. -/
def descLoop (taskIndent : Nat) : List String → List String
  | [] => []
  | l :: rest =>
    if trimString l ≠ "" ∧ leadingWsCount l ≤ taskIndent then []
    else if isTaskLine l then []
    else if trimString l ≠ "" then trimString l :: descLoop taskIndent rest
    else descLoop taskIndent rest

/-- `extractDescription`: the description block following the task line. -/
def extractDescription (lines : List String) (taskIndex : Nat) : String :=
  joinSep "\n"
    (descLoop (leadingWsCount (lines.getD taskIndex "")) (lines.drop (taskIndex + 1)))

/-- `parseTasksFromContent`: split into lines, parse each line, and attach
the description block of each parsed task. -/
def parseTasksFromContent (content : String) (filePath : String)
    (syncTag : String) (lastModified : Nat) : List ParsedObsidianTask :=
  let lines := splitLines content
  (List.range lines.length).filterMap fun i =>
    (parseTaskLine (lines.getD i "") i filePath syncTag lastModified).map fun t =>
      { t with description := extractDescription lines i }

/-- The per-task record persisted in the sync state (`SyncedTask` of
`types.ts`). -/
structure SyncedTask where
  todoistId : String
  filePath : String
  lineNumber : Nat
  contentHash : String
  lastSynced : Nat
  obsidianCompleted : Bool
  todoistCompleted : Bool
deriving Repr, DecidableEq

/-- The persisted sync state: a keyed record map plus the last-full-sync
timestamp.  The record map is an association list with the key-uniqueness
discipline of a JavaScript object: insertion keeps the position of an
existing key, deletion removes the key. -/
structure SyncState where
  tasks : List (String × SyncedTask)
  lastFullSync : Nat
deriving Repr, DecidableEq

/-- A queued conflict (`SyncConflict` of `types.ts`). -/
structure SyncConflict where
  todoistId : String
  filePath : String
  lineNumber : Nat
  obsidianContent : String
  todoistContent : String
  obsidianCompleted : Bool
  todoistCompleted : Bool
deriving Repr, DecidableEq

/-- The conflict-resolution policy of the settings. -/
inductive ConflictResolution
  | obsidianWins
  | todoistWins
  | askUser
deriving Repr, DecidableEq

/-- The settings fields the engine reads. -/
structure TodoistSyncSettings where
  syncTag : String
  defaultProjectId : String
  conflictResolution : ConflictResolution
deriving Repr, DecidableEq

/-- A remote task as fetched from the service. -/
structure RemoteTask where
  id : String
  content : String
  isCompleted : Bool
  due : Option String
  priority : TodoistPriority
deriving Repr, DecidableEq

/-- `TodoistService.parseDueDate`: the date of the due field, if any. -/
def parseDueDate (t : RemoteTask) : Option String := t.due

/-- The options `createTodoistTask` passes to the gateway create call. -/
structure CreateOptions where
  projectId : Option String
  priority : TodoistPriority
  dueDate : Option String
  labels : List String
  description : String
deriving Repr, DecidableEq

/-- The fields `syncExistingTask` passes to the gateway update call. -/
structure UpdateOptions where
  content : String
  priority : TodoistPriority
  dueString : Option String
  labels : List String
deriving Repr, DecidableEq

/-- The remote gateway as the engine sees it: an initialization flag and
one outcome per asynchronous call.  Each call either returns a value or
fails with a message string. -/
structure TodoistGateway where
  initialized : Bool
  getTasks : Except String (List RemoteTask)
  createTask : String → CreateOptions → Except String RemoteTask
  completeTask : String → Except String Bool
  reopenTask : String → Except String Bool
  updateTask : String → UpdateOptions → Except String RemoteTask

/-- One external side effect of a pass, for stating that a scenario does or
does not touch the remote service or the vault. -/
inductive SyncAction
  | fetchTasks
  | createTask (content : String)
  | closeTask (id : String)
  | reopenTask (id : String)
  | updateTask (id : String)
  | writeFile (path : String)
deriving Repr, DecidableEq

/-- A document of the vault, with its path, full text and modification
timestamp. -/
structure VaultFile where
  path : String
  content : String
  mtime : Nat
deriving Repr, DecidableEq

/-- The mutable state the engine owns: the vault text, the sync state, the
pending-conflict queue and the in-progress flag. -/
structure EngineState where
  vault : List VaultFile
  syncState : SyncState
  pendingConflicts : List SyncConflict
  isSyncing : Bool
deriving Repr, DecidableEq

/-- The result summary of a pass. -/
structure SyncResult where
  created : Nat
  updated : Nat
  completed : Nat
  conflicts : Nat
  errors : List String
deriving Repr, DecidableEq

/-- The all-zero result. -/
def emptyResult : SyncResult :=
  { created := 0, updated := 0, completed := 0, conflicts := 0, errors := [] }

/-- The return value of `syncExistingTask`. -/
inductive SyncOutcome
  | updated
  | conflict
  | completed
  | unchanged
deriving Repr, DecidableEq

/-- Lookup in a keyed association list (JavaScript object or Map read). -/
def alistLookup {α : Type} : List (String × α) → String → Option α
  | [], _ => none
  | (k2, v) :: t, k => if k2 = k then some v else alistLookup t k

/-- Insert or overwrite in a keyed association list: an existing key keeps
its position and gets the new value, a new key is appended (JavaScript
object or Map write). -/
def alistUpsert {α : Type} : List (String × α) → String → α → List (String × α)
  | [], k, v => [(k, v)]
  | (k2, v2) :: t, k, v =>
    if k2 = k then (k2, v) :: t else (k2, v2) :: alistUpsert t k v

/-- Delete a key from a keyed association list (JavaScript delete). -/
def alistErase {α : Type} : List (String × α) → String → List (String × α)
  | [], _ => []
  | (k2, v) :: t, k => if k2 = k then alistErase t k else (k2, v) :: alistErase t k

/-- Read a document by path (`vault.getAbstractFileByPath` plus read). -/
def vaultRead : List VaultFile → String → Option String
  | [], _ => none
  | f :: t, p => if f.path = p then some f.content else vaultRead t p

/-- Overwrite the text of the document at a path (`vault.modify`). -/
def vaultWrite (v : List VaultFile) (p : String) (c : String) : List VaultFile :=
  v.map fun f => if f.path = p then { f with content := c } else f

/-- `updateObsidianTaskLine`: read the file, fail when it is missing or the
line index is out of range, otherwise rewrite that single line with the
transform and write the file back. -/
def updateObsidianTaskLine (v : List VaultFile) (p : String) (n : Nat)
    (transform : String → String) : Except String (List VaultFile) :=
  match vaultRead v p with
  | none => Except.error ("File not found: " ++ p)
  | some c =>
    let lines := splitLines c
    if n < lines.length then
      Except.ok (vaultWrite v p (joinSep "\n" (lines.set n (transform (lines.getD n "")))))
    else Except.error ("Line number out of range: " ++ toString n)

/-- `replaceLineInFile`: like `updateObsidianTaskLine` with a constant new
line. -/
def replaceLineInFile (v : List VaultFile) (p : String) (n : Nat)
    (newLine : String) : Except String (List VaultFile) :=
  updateObsidianTaskLine v p n fun _ => newLine

/-- `getAllObsidianTasks`: scan every document of the vault in order. -/
def getAllObsidianTasks (v : List VaultFile) (syncTag : String) : List ParsedObsidianTask :=
  v.flatMap fun f => parseTasksFromContent f.content f.path syncTag f.mtime

/-- One step of the partition of scanned tasks into linked (keyed by remote
id, last occurrence of a duplicate id winning) and new. -/
def partitionStep (acc : List (String × ParsedObsidianTask) × List ParsedObsidianTask)
    (t : ParsedObsidianTask) :
    List (String × ParsedObsidianTask) × List ParsedObsidianTask :=
  match t.todoistId with
  | some id => (alistUpsert acc.1 id t, acc.2)
  | none => (acc.1, acc.2 ++ [t])

/-- Partition the scanned tasks into the linked map and the new list. -/
def partitionTasks (ts : List ParsedObsidianTask) :
    List (String × ParsedObsidianTask) × List ParsedObsidianTask :=
  ts.foldl partitionStep ([], [])

/-- `updateSyncStateTask`: write the record of a task, filling both
completion flags from the single completed argument. -/
def updateSyncStateTask (s : SyncState) (todoistId : String)
    (t : ParsedObsidianTask) (completed : Bool) (now : Nat) : SyncState :=
  { s with
    tasks := alistUpsert s.tasks todoistId
      { todoistId := todoistId
        filePath := t.filePath
        lineNumber := t.lineNumber
        contentHash := generateContentHash t
        lastSynced := now
        obsidianCompleted := completed
        todoistCompleted := completed } }

/-- The create options `createTodoistTask` builds from the settings and the
task (an empty default project means none). -/
def mkCreateOptions (settings : TodoistSyncSettings) (t : ParsedObsidianTask) : CreateOptions :=
  { projectId := if settings.defaultProjectId = "" then none else some settings.defaultProjectId
    priority := t.priority
    dueDate := t.dueDate
    labels := t.labels
    description := t.description }

/-- `markObsidianTaskCompleted`: rewrite the task's source line with the
completion codec. -/
def markObsidianTaskCompleted (st : EngineState) (t : ParsedObsidianTask) :
    Except String (List VaultFile) :=
  updateObsidianTaskLine st.vault t.filePath t.lineNumber fun l => updateTaskCompletion l true

/-- `createTodoistTask`: create remotely; on success rewrite the source line
with the new identifier, insert the record, and close the remote task when
the local one is already completed.  The returned state keeps every mutation
performed before a failure, the action list records the external calls made,
and the option carries the failure message, if any. -/
def createTodoistTask (gw : TodoistGateway) (settings : TodoistSyncSettings) (now : Nat)
    (t : ParsedObsidianTask) (st : EngineState) :
    EngineState × List SyncAction × Option String :=
  match gw.createTask t.content (mkCreateOptions settings t) with
  | Except.error e => (st, [SyncAction.createTask t.content], some e)
  | Except.ok nt =>
    match updateObsidianTaskLine st.vault t.filePath t.lineNumber
        (fun l => addTodoistIdToLine l nt.id) with
    | Except.error e => (st, [SyncAction.createTask t.content], some e)
    | Except.ok v2 =>
      let st2 : EngineState :=
        { st with
          vault := v2
          syncState :=
            { st.syncState with
              tasks := alistUpsert st.syncState.tasks nt.id
                { todoistId := nt.id
                  filePath := t.filePath
                  lineNumber := t.lineNumber
                  contentHash := generateContentHash t
                  lastSynced := now
                  obsidianCompleted := t.isCompleted
                  todoistCompleted := nt.isCompleted } } }
      if t.isCompleted then
        match gw.completeTask nt.id with
        | Except.error e =>
          (st2, [SyncAction.createTask t.content, SyncAction.writeFile t.filePath,
                 SyncAction.closeTask nt.id], some e)
        | Except.ok _ =>
          (st2, [SyncAction.createTask t.content, SyncAction.writeFile t.filePath,
                 SyncAction.closeTask nt.id], none)
      else (st2, [SyncAction.createTask t.content, SyncAction.writeFile t.filePath], none)

/-- `updateObsidianTaskFromTodoist`: rebuild the line from the remote fields
through the codec and splice it into the file. -/
def updateObsidianTaskFromTodoist (st : EngineState) (ot : ParsedObsidianTask)
    (rt : RemoteTask) (settings : TodoistSyncSettings) : Except String (List VaultFile) :=
  let updatedTask : ParsedObsidianTask :=
    { ot with
      content := rt.content
      priority := rt.priority
      dueDate := parseDueDate rt
      isCompleted := rt.isCompleted }
  replaceLineInFile st.vault ot.filePath ot.lineNumber (buildTaskLine updatedTask settings.syncTag)

/-- `syncExistingTask`: completion flags first, then the content, priority
and due-date comparison, dispatched on the conflict policy.  The returned
state keeps every mutation performed before a failure and the exception
value carries either the outcome or the failure message. -/
def syncExistingTask (gw : TodoistGateway) (settings : TodoistSyncSettings) (now : Nat)
    (ot : ParsedObsidianTask) (rt : RemoteTask) (st : EngineState) :
    EngineState × List SyncAction × Except String SyncOutcome :=
  if ot.isCompleted && !rt.isCompleted then
    match gw.completeTask rt.id with
    | Except.error e => (st, [SyncAction.closeTask rt.id], Except.error e)
    | Except.ok _ =>
      ({ st with syncState := updateSyncStateTask st.syncState rt.id ot true now },
       [SyncAction.closeTask rt.id], Except.ok SyncOutcome.completed)
  else if !ot.isCompleted && rt.isCompleted then
    match settings.conflictResolution with
    | ConflictResolution.todoistWins =>
      match markObsidianTaskCompleted st ot with
      | Except.error e => (st, [], Except.error e)
      | Except.ok v2 =>
        ({ st with
            vault := v2
            syncState := updateSyncStateTask st.syncState rt.id ot true now },
         [SyncAction.writeFile ot.filePath], Except.ok SyncOutcome.completed)
    | ConflictResolution.obsidianWins =>
      match gw.reopenTask rt.id with
      | Except.error e => (st, [SyncAction.reopenTask rt.id], Except.error e)
      | Except.ok _ =>
        ({ st with syncState := updateSyncStateTask st.syncState rt.id ot false now },
         [SyncAction.reopenTask rt.id], Except.ok SyncOutcome.updated)
    | ConflictResolution.askUser =>
      match markObsidianTaskCompleted st ot with
      | Except.error e => (st, [], Except.error e)
      | Except.ok v2 =>
        ({ st with
            vault := v2
            syncState := updateSyncStateTask st.syncState rt.id ot true now },
         [SyncAction.writeFile ot.filePath], Except.ok SyncOutcome.conflict)
  else
    let contentDiffers := ot.content ≠ rt.content
    let priorityDiffers := ot.priority ≠ rt.priority
    let dueDateDiffers := ot.dueDate ≠ parseDueDate rt
    if ¬(contentDiffers ∨ priorityDiffers ∨ dueDateDiffers) then
      ({ st with syncState := updateSyncStateTask st.syncState rt.id ot ot.isCompleted now },
       [], Except.ok SyncOutcome.unchanged)
    else
      match settings.conflictResolution with
      | ConflictResolution.obsidianWins =>
        match gw.updateTask rt.id
            { content := ot.content, priority := ot.priority,
              dueString := ot.dueDate, labels := ot.labels } with
        | Except.error e => (st, [SyncAction.updateTask rt.id], Except.error e)
        | Except.ok _ =>
          ({ st with syncState := updateSyncStateTask st.syncState rt.id ot ot.isCompleted now },
           [SyncAction.updateTask rt.id], Except.ok SyncOutcome.updated)
      | ConflictResolution.todoistWins =>
        match updateObsidianTaskFromTodoist st ot rt settings with
        | Except.error e => (st, [], Except.error e)
        | Except.ok v2 =>
          ({ st with
              vault := v2
              syncState := updateSyncStateTask st.syncState rt.id ot ot.isCompleted now },
           [SyncAction.writeFile ot.filePath], Except.ok SyncOutcome.updated)
      | ConflictResolution.askUser =>
        ({ st with
            pendingConflicts := st.pendingConflicts ++
              [{ todoistId := rt.id
                 filePath := ot.filePath
                 lineNumber := ot.lineNumber
                 obsidianContent := ot.content
                 todoistContent := rt.content
                 obsidianCompleted := ot.isCompleted
                 todoistCompleted := rt.isCompleted }] },
         [], Except.ok SyncOutcome.conflict)

/-- Accumulator of a pass: current engine state, running result, and the
trace of external actions. -/
structure PassAcc where
  st : EngineState
  res : SyncResult
  acts : List SyncAction
deriving Repr

/-- One step of the creation phase: run `createTodoistTask` for one new
task; count it as created when the whole routine succeeded, otherwise
append the wrapped failure message. -/
def creationStep (gw : TodoistGateway) (settings : TodoistSyncSettings) (now : Nat)
    (acc : PassAcc) (t : ParsedObsidianTask) : PassAcc :=
  match createTodoistTask gw settings now t acc.st with
  | (st2, acts, none) =>
    { st := st2
      res := { acc.res with created := acc.res.created + 1 }
      acts := acc.acts ++ acts }
  | (st2, acts, some e) =>
    { st := st2
      res := { acc.res with
        errors := acc.res.errors ++ ["Failed to create task: " ++ t.content ++ " - " ++ e] }
      acts := acc.acts ++ acts }

/-- One step of the linked-task phase: deletion detection when the remote
task is gone, otherwise `syncExistingTask` with its outcome tallied. -/
def linkedStep (gw : TodoistGateway) (settings : TodoistSyncSettings) (now : Nat)
    (remoteMap : List (String × RemoteTask)) (acc : PassAcc)
    (entry : String × ParsedObsidianTask) : PassAcc :=
  match alistLookup remoteMap entry.1 with
  | none =>
    match markObsidianTaskCompleted acc.st entry.2 with
    | Except.error _ =>
      { acc with res := { acc.res with
          errors := acc.res.errors ++ ["Failed to mark task completed: " ++ entry.2.content] } }
    | Except.ok v2 =>
      { st := { acc.st with
          vault := v2
          syncState := { acc.st.syncState with
            tasks := alistErase acc.st.syncState.tasks entry.1 } }
        res := { acc.res with completed := acc.res.completed + 1 }
        acts := acc.acts ++ [SyncAction.writeFile entry.2.filePath] }
  | some rt =>
    match syncExistingTask gw settings now entry.2 rt acc.st with
    | (st2, acts, Except.ok o) =>
      { st := st2
        acts := acc.acts ++ acts
        res :=
          match o with
          | SyncOutcome.updated => { acc.res with updated := acc.res.updated + 1 }
          | SyncOutcome.conflict => { acc.res with conflicts := acc.res.conflicts + 1 }
          | SyncOutcome.completed => { acc.res with completed := acc.res.completed + 1 }
          | SyncOutcome.unchanged => acc.res }
    | (st2, acts, Except.error e) =>
      { st := st2
        acts := acc.acts ++ acts
        res := { acc.res with
          errors := acc.res.errors ++ ["Failed to sync task: " ++ entry.2.content ++ " - " ++ e] } }

/-- One step of the final cleanup loop over the remote map: a remote id with
a record but no linked local task loses its record. -/
def cleanupStep (linked : List (String × ParsedObsidianTask)) (st : EngineState)
    (entry : String × RemoteTask) : EngineState :=
  if (alistLookup st.syncState.tasks entry.1).isSome ∧ (alistLookup linked entry.1).isNone then
    { st with syncState := { st.syncState with
        tasks := alistErase st.syncState.tasks entry.1 } }
  else st

/-- Build the id-keyed remote map from the fetched list. -/
def buildRemoteMap (ts : List RemoteTask) : List (String × RemoteTask) :=
  ts.foldl (fun m t => alistUpsert m t.id t) []

/-- `performSync`: the full pass.  Guard, configuration check, fetch (a
failure aborts), scan, partition, creation phase, linked phase, cleanup
loop, timestamp update.  Returns the result, the final engine state, and
the trace of external actions. -/
def performSync (gw : TodoistGateway) (settings : TodoistSyncSettings) (now : Nat)
    (st : EngineState) : SyncResult × EngineState × List SyncAction :=
  if st.isSyncing then
    ({ emptyResult with errors := ["Sync already in progress"] }, st, [])
  else if !gw.initialized then
    ({ emptyResult with errors := ["Todoist API not configured"] }, st, [])
  else
    let st0 : EngineState := { st with isSyncing := true }
    match gw.getTasks with
    | Except.error e =>
      ({ emptyResult with errors := ["Failed to fetch Todoist tasks: " ++ e] },
       { st0 with isSyncing := false }, [SyncAction.fetchTasks])
    | Except.ok ts =>
      let remoteMap := buildRemoteMap ts
      let parts := partitionTasks (getAllObsidianTasks st0.vault settings.syncTag)
      let acc1 := parts.2.foldl (creationStep gw settings now)
        { st := st0, res := emptyResult, acts := [SyncAction.fetchTasks] }
      let acc2 := parts.1.foldl (linkedStep gw settings now remoteMap) acc1
      let st3 := remoteMap.foldl (cleanupStep parts.1) acc2.st
      (acc2.res,
       { st3 with
         syncState := { st3.syncState with lastFullSync := now }
         isSyncing := false },
       acc2.acts)

/-! ### Concrete fixtures used to instantiate the theorems -/

/-- A remote task with the given id and content and default remaining
fields. -/
def fixRemote (id content : String) : RemoteTask :=
  { id := id, content := content, isCompleted := false, due := none,
    priority := TodoistPriority.NONE }

/-- A gateway whose calls all succeed; creation always returns id 555. -/
def fixGatewayOk : TodoistGateway :=
  { initialized := true
    getTasks := Except.ok []
    createTask := fun c _ => Except.ok (fixRemote "555" c)
    completeTask := fun _ => Except.ok true
    reopenTask := fun _ => Except.ok true
    updateTask := fun i _ => Except.ok (fixRemote i "") }

/-- Default settings with the default sync tag. -/
def fixSettings : TodoistSyncSettings :=
  { syncTag := "#todoist", defaultProjectId := "",
    conflictResolution := ConflictResolution.todoistWins }

/-- A minimal persisted record for the given id and path. -/
def fixRecord (id path : String) : SyncedTask :=
  { todoistId := id, filePath := path, lineNumber := 0, contentHash := "",
    lastSynced := 0, obsidianCompleted := false, todoistCompleted := false }

/-- An engine state with the given vault and records, idle and with no
queued conflicts. -/
def fixState (v : List VaultFile) (tasks : List (String × SyncedTask)) : EngineState :=
  { vault := v, syncState := { tasks := tasks, lastFullSync := 0 },
    pendingConflicts := [], isSyncing := false }

/-- The serialized identifier comment with its leading space, as
`buildTaskLine` and `addTodoistIdToLine` append it. -/
def idCommentFor (id : String) : String :=
  String.mk ([' '] ++ idOpenChars ++ [' '] ++ idLabelChars ++ id.data ++ [' '] ++ idCloseChars)

/-- The sync-tag name (the tag without its hash) used by the codec
fixtures. -/
def fixMarkerName : List Char := ['t', 'o', 'd', 'o', 'i', 's', 't']

/-- A well-formed task without labels, used to witness the codec
round-trip. -/
def fixRoundTask : ParsedObsidianTask :=
  { originalLine := ""
    lineNumber := 0
    filePath := ""
    content := "Call mom"
    isCompleted := true
    todoistId := some "12345"
    dueDate := some "2024-01-15"
    priority := TodoistPriority.HIGH
    labels := []
    description := ""
    lastModified := 0 }

/-- A task identical to `fixRoundTask` except that it carries a label and
no other metadata; its serialized label hashtag survives `cleanTaskContent`. -/
def fixLabelTask : ParsedObsidianTask :=
  { originalLine := ""
    lineNumber := 0
    filePath := ""
    content := "Call mom"
    isCompleted := false
    todoistId := none
    dueDate := none
    priority := TodoistPriority.NONE
    labels := ["home"]
    description := ""
    lastModified := 0 }

/-! ### Helper lemmas on the association-list operations -/

theorem alistLookup_upsert_self {α : Type} (m : List (String × α)) (k : String) (v : α) :
    alistLookup (alistUpsert m k v) k = some v := by
  induction m with
  | nil => simp [alistUpsert, alistLookup]
  | cons h t ih =>
    obtain ⟨k2, v2⟩ := h
    by_cases hk : k2 = k
    · simp [alistUpsert, alistLookup, hk]
    · simp [alistUpsert, alistLookup, hk, ih]

theorem alistLookup_erase_self {α : Type} (m : List (String × α)) (k : String) :
    alistLookup (alistErase m k) k = none := by
  induction m with
  | nil => simp [alistErase, alistLookup]
  | cons h t ih =>
    obtain ⟨k2, v2⟩ := h
    by_cases hk : k2 = k
    · simpa [alistErase, hk] using ih
    · simp [alistErase, alistLookup, hk, ih]

theorem alistLookup_erase_none {α : Type} (m : List (String × α)) (k k2 : String)
    (h : alistLookup m k = none) : alistLookup (alistErase m k2) k = none := by
  induction m with
  | nil => simp [alistErase, alistLookup]
  | cons hd t ih =>
    obtain ⟨k3, v3⟩ := hd
    simp only [alistLookup] at h
    by_cases hk : k3 = k
    · simp [hk] at h
    · simp only [hk, if_false] at h
      by_cases hk2 : k3 = k2
      · simpa [alistErase, hk2] using ih h
      · simp [alistErase, alistLookup, hk2, hk, ih h]

/-- The cleanup loop never inserts: a missing record stays missing. -/
theorem cleanupStep_preserves_none (linked : List (String × ParsedObsidianTask))
    (st : EngineState) (entry : String × RemoteTask) (k : String)
    (h : alistLookup st.syncState.tasks k = none) :
    alistLookup ((cleanupStep linked st entry).syncState.tasks) k = none := by
  unfold cleanupStep
  split
  · exact alistLookup_erase_none _ _ _ h
  · exact h

/-- After folding the cleanup loop, a missing record stays missing. -/
theorem cleanupFold_preserves_none (linked : List (String × ParsedObsidianTask))
    (rm : List (String × RemoteTask)) (st : EngineState) (k : String)
    (h : alistLookup st.syncState.tasks k = none) :
    alistLookup ((rm.foldl (cleanupStep linked) st).syncState.tasks) k = none := by
  induction rm generalizing st with
  | nil => exact h
  | cons hd t ih => exact ih _ (cleanupStep_preserves_none linked st hd k h)

/-- The cleanup loop deletes the record of every remote id without a linked
local task. -/
theorem cleanupFold_deletes (linked : List (String × ParsedObsidianTask))
    (rm : List (String × RemoteTask)) (st : EngineState) (k : String)
    (hmem : ∃ rt, (k, rt) ∈ rm) (hnl : alistLookup linked k = none) :
    alistLookup ((rm.foldl (cleanupStep linked) st).syncState.tasks) k = none := by
  induction rm generalizing st with
  | nil => obtain ⟨rt, hrt⟩ := hmem; simp at hrt
  | cons hd t ih =>
    obtain ⟨rt, hrt⟩ := hmem
    rcases List.mem_cons.mp hrt with heq | hmem2
    · subst heq
      simp only [List.foldl_cons]
      apply cleanupFold_preserves_none
      unfold cleanupStep
      by_cases hs : (alistLookup st.syncState.tasks (k, rt).1).isSome = true
      · rw [if_pos ⟨hs, by simp [hnl]⟩]
        exact alistLookup_erase_self _ _
      · rw [if_neg (fun hc => hs hc.1)]
        simpa using hs
    · simp only [List.foldl_cons]
      exact ih _ ⟨rt, hmem2⟩

/-! ### Claims about the reconciliation engine -/

/-- C4: invoking `performSync` while a prior invocation is in flight returns
immediately with all four counters zero and exactly one error entry, without
fetching, scanning, or mutating any state. -/
theorem performSync_reentrant_rejected (gw : TodoistGateway)
    (settings : TodoistSyncSettings) (now : Nat) (st : EngineState)
    (h : st.isSyncing = true) :
    performSync gw settings now st =
      ({ created := 0, updated := 0, completed := 0, conflicts := 0,
         errors := ["Sync already in progress"] }, st, []) := by
  simp [performSync, h, emptyResult]

/-- Closed instance of the reentrancy rejection. -/
theorem performSync_reentrant_rejected_witness :
    performSync
      { initialized := true, getTasks := Except.ok [],
        createTask := fun _ _ => Except.error "x",
        completeTask := fun _ => Except.error "x",
        reopenTask := fun _ => Except.error "x",
        updateTask := fun _ _ => Except.error "x" }
      { syncTag := "#todoist", defaultProjectId := "",
        conflictResolution := ConflictResolution.todoistWins }
      5
      { vault := [], syncState := { tasks := [], lastFullSync := 0 },
        pendingConflicts := [], isSyncing := true } =
      ({ created := 0, updated := 0, completed := 0, conflicts := 0,
         errors := ["Sync already in progress"] },
       { vault := [], syncState := { tasks := [], lastFullSync := 0 },
         pendingConflicts := [], isSyncing := true }, []) :=
  performSync_reentrant_rejected _ _ _ _ rfl

/-- C2: a failure of the initial remote fetch aborts the pass immediately:
all counters are zero, the errors list holds exactly the fetch failure
message, and the engine state (vault, sync state, conflicts, flag) is
returned unchanged; in particular no record changes and the last-full-sync
timestamp is not updated.  The only external action is the fetch itself. -/
theorem performSync_fetch_failure_aborts (gw : TodoistGateway)
    (settings : TodoistSyncSettings) (now : Nat) (st : EngineState) (e : String)
    (h1 : st.isSyncing = false) (h2 : gw.initialized = true)
    (h3 : gw.getTasks = Except.error e) :
    performSync gw settings now st =
      ({ created := 0, updated := 0, completed := 0, conflicts := 0,
         errors := ["Failed to fetch Todoist tasks: " ++ e] }, st,
       [SyncAction.fetchTasks]) := by
  obtain ⟨v, ss, pc, sy⟩ := st
  subst h1
  simp [performSync, h2, h3, emptyResult]

/-- Closed instance of the fetch-failure abort. -/
theorem performSync_fetch_failure_aborts_witness :
    performSync
      { initialized := true, getTasks := Except.error "boom",
        createTask := fun _ _ => Except.error "x",
        completeTask := fun _ => Except.error "x",
        reopenTask := fun _ => Except.error "x",
        updateTask := fun _ _ => Except.error "x" }
      { syncTag := "#todoist", defaultProjectId := "",
        conflictResolution := ConflictResolution.todoistWins }
      5
      { vault := [], syncState := { tasks := [], lastFullSync := 3 },
        pendingConflicts := [], isSyncing := false } =
      ({ created := 0, updated := 0, completed := 0, conflicts := 0,
         errors := ["Failed to fetch Todoist tasks: boom"] },
       { vault := [], syncState := { tasks := [], lastFullSync := 3 },
         pendingConflicts := [], isSyncing := false },
       [SyncAction.fetchTasks]) :=
  performSync_fetch_failure_aborts _ _ _ _ _ rfl rfl rfl

/-- C9: every invocation that passes the in-progress guard (the flag is
clear when it starts) leaves the flag clear when it resolves, on every path:
the not-configured early return, the fetch-failure abort, and normal
completion with arbitrary per-task outcomes.  A later non-overlapping
invocation is therefore never rejected by the guard. -/
theorem performSync_clears_flag (gw : TodoistGateway)
    (settings : TodoistSyncSettings) (now : Nat) (st : EngineState)
    (h1 : st.isSyncing = false) :
    (performSync gw settings now st).2.1.isSyncing = false := by
  unfold performSync
  rw [if_neg (by simp [h1])]
  by_cases h2 : gw.initialized
  · rw [if_neg (by simp [h2])]
    cases hgt : gw.getTasks with
    | error e => simp
    | ok ts => simp
  · rw [if_pos (by simp [h2])]
    exact h1

/-- Closed instance of the flag-clearing property. -/
theorem performSync_clears_flag_witness :
    (performSync
      { initialized := true, getTasks := Except.ok [],
        createTask := fun _ _ => Except.error "x",
        completeTask := fun _ => Except.error "x",
        reopenTask := fun _ => Except.error "x",
        updateTask := fun _ _ => Except.error "x" }
      { syncTag := "#todoist", defaultProjectId := "",
        conflictResolution := ConflictResolution.todoistWins }
      5
      { vault := [], syncState := { tasks := [], lastFullSync := 0 },
        pendingConflicts := [], isSyncing := false }).2.1.isSyncing = false :=
  performSync_clears_flag _ _ _ _ rfl

/-- C10: every record written through `updateSyncStateTask` (the
linked-task reconciliation path) carries equal completion flags, both set
from the single completed argument. -/
theorem updateSyncStateTask_equal_flags (s : SyncState) (todoistId : String)
    (t : ParsedObsidianTask) (completed : Bool) (now : Nat) :
    ∃ r, alistLookup (updateSyncStateTask s todoistId t completed now).tasks todoistId = some r ∧
      r.obsidianCompleted = completed ∧ r.todoistCompleted = completed := by
  refine ⟨{ todoistId := todoistId, filePath := t.filePath, lineNumber := t.lineNumber,
            contentHash := generateContentHash t, lastSynced := now,
            obsidianCompleted := completed, todoistCompleted := completed }, ?_, rfl, rfl⟩
  unfold updateSyncStateTask
  exact alistLookup_upsert_self _ _ _

/-- C3 counterexample: a record (id 9) present in the sync state but absent
from both the fetched remote set (which is empty) and the linked set (the
vault is empty, so no local task links to it) survives the pass untouched —
the cleanup loop iterates the remote map only, so it never deletes a record
whose id is absent from the remote map. -/
theorem orphan_cleanup_stale_record_survives :
    getAllObsidianTasks (fixState [] [("9", fixRecord "9" "g.md")]).vault
      fixSettings.syncTag = [] ∧
    fixGatewayOk.getTasks = Except.ok [] ∧
    alistLookup
      (performSync fixGatewayOk fixSettings 99
        (fixState [] [("9", fixRecord "9" "g.md")])).2.1.syncState.tasks "9" =
      some (fixRecord "9" "g.md") := by
  refine ⟨by decide, rfl, by decide⟩

/-- C3 (amended): after a pass that reaches the orphan-cleanup step, every
remote id present in the fetched remote map but absent from the pass's
linked set has no record in the final sync state.  (Ids absent from both
the remote map and the linked set are, contrary to the original claim, not
cleaned up: the loop iterates the remote map.) -/
theorem performSync_cleanup_remote_unlinked (gw : TodoistGateway)
    (settings : TodoistSyncSettings) (now : Nat) (st : EngineState)
    (ts : List RemoteTask) (id : String) (rt : RemoteTask)
    (h1 : st.isSyncing = false) (h2 : gw.initialized = true)
    (h3 : gw.getTasks = Except.ok ts)
    (hmem : (id, rt) ∈ buildRemoteMap ts)
    (hnl : alistLookup (partitionTasks (getAllObsidianTasks st.vault settings.syncTag)).1 id = none) :
    alistLookup (performSync gw settings now st).2.1.syncState.tasks id = none := by
  unfold performSync
  rw [if_neg (by simp [h1]), if_neg (by simp [h2]), h3]
  simp only
  exact cleanupFold_deletes _ _ _ _ ⟨rt, hmem⟩ hnl

/-- Closed instance of the amended cleanup property: remote id 9 exists
remotely, has a record, but no linked local task; its record is deleted. -/
theorem performSync_cleanup_remote_unlinked_witness :
    alistLookup
      (performSync
        { fixGatewayOk with getTasks := Except.ok [fixRemote "9" "Remote only"] }
        fixSettings 99
        (fixState [] [("9", fixRecord "9" "g.md")])).2.1.syncState.tasks "9" = none :=
  performSync_cleanup_remote_unlinked _ _ 99 _ [fixRemote "9" "Remote only"] "9"
    (fixRemote "9" "Remote only") rfl rfl rfl (by decide) (by decide)

/-- C5: for a linked task whose local and remote completion flags agree and
whose content, priority or due date differ, a pass under the ask-user
policy mutates neither the vault, the remote task (the only external action
is the fetch), nor that task's record; it enqueues exactly one conflict and
reports one conflict and no other counter. -/
theorem performSync_ask_content_conflict (gw : TodoistGateway)
    (settings : TodoistSyncSettings) (now : Nat) (st : EngineState)
    (t : ParsedObsidianTask) (rt : RemoteTask)
    (h1 : st.isSyncing = false) (h2 : gw.initialized = true)
    (h3 : gw.getTasks = Except.ok [rt])
    (hscan : getAllObsidianTasks st.vault settings.syncTag = [t])
    (hid : t.todoistId = some rt.id)
    (hfl : t.isCompleted = rt.isCompleted)
    (hdiff : t.content ≠ rt.content ∨ t.priority ≠ rt.priority ∨ t.dueDate ≠ parseDueDate rt)
    (hpol : settings.conflictResolution = ConflictResolution.askUser) :
    performSync gw settings now st =
      ({ created := 0, updated := 0, completed := 0, conflicts := 1, errors := [] },
       { vault := st.vault
         syncState := { tasks := st.syncState.tasks, lastFullSync := now }
         pendingConflicts := st.pendingConflicts ++
           [{ todoistId := rt.id, filePath := t.filePath, lineNumber := t.lineNumber,
              obsidianContent := t.content, todoistContent := rt.content,
              obsidianCompleted := t.isCompleted, todoistCompleted := rt.isCompleted }]
         isSyncing := false },
       [SyncAction.fetchTasks]) := by
  obtain ⟨v, ⟨tks, lfs⟩, pc, sy⟩ := st
  obtain ⟨tag, dpid, cres⟩ := settings
  simp only at h1 hscan hpol
  subst h1
  subst hpol
  unfold performSync
  rw [if_neg (by simp), if_neg (by simp [h2]), h3]
  simp only [buildRemoteMap, List.foldl_cons, List.foldl_nil, alistUpsert]
  simp only [hscan, partitionTasks, List.foldl_cons, List.foldl_nil, partitionStep, hid,
    alistUpsert]
  simp only [linkedStep, alistLookup, ite_true, eq_self_iff_true]
  unfold syncExistingTask
  simp only [hfl, Bool.and_not_self, Bool.not_and_self, Bool.false_eq_true, if_false]
  rw [if_neg (not_not_intro hdiff)]
  simp only [cleanupStep, alistLookup, ite_true, eq_self_iff_true, Option.isNone_some,
    Bool.false_eq_true, and_false, if_false, List.foldl_cons, List.foldl_nil]
  simp [emptyResult, hfl]

/-- Closed instance of the ask-policy conflict behaviour. -/
theorem performSync_ask_content_conflict_witness :
    performSync
      { fixGatewayOk with getTasks := Except.ok [fixRemote "7" "Other text"] }
      { fixSettings with conflictResolution := ConflictResolution.askUser }
      99
      (fixState
        [{ path := "f.md", content := "- [ ] Call mom #todoist" ++ idCommentFor "7", mtime := 0 }]
        [("7", fixRecord "7" "f.md")]) =
      ({ created := 0, updated := 0, completed := 0, conflicts := 1, errors := [] },
       { vault :=
           (fixState
             [{ path := "f.md", content := "- [ ] Call mom #todoist" ++ idCommentFor "7", mtime := 0 }]
             [("7", fixRecord "7" "f.md")]).vault
         syncState :=
           { tasks :=
               (fixState
                 [{ path := "f.md", content := "- [ ] Call mom #todoist" ++ idCommentFor "7", mtime := 0 }]
                 [("7", fixRecord "7" "f.md")]).syncState.tasks
             lastFullSync := 99 }
         pendingConflicts :=
           (fixState
             [{ path := "f.md", content := "- [ ] Call mom #todoist" ++ idCommentFor "7", mtime := 0 }]
             [("7", fixRecord "7" "f.md")]).pendingConflicts ++
           [{ todoistId := (fixRemote "7" "Other text").id
              filePath := "f.md"
              lineNumber := 0
              obsidianContent := "Call mom"
              todoistContent := (fixRemote "7" "Other text").content
              obsidianCompleted := false
              todoistCompleted := (fixRemote "7" "Other text").isCompleted }]
         isSyncing := false },
       [SyncAction.fetchTasks]) :=
  performSync_ask_content_conflict
    { fixGatewayOk with getTasks := Except.ok [fixRemote "7" "Other text"] }
    { fixSettings with conflictResolution := ConflictResolution.askUser }
    99
    (fixState
      [{ path := "f.md", content := "- [ ] Call mom #todoist" ++ idCommentFor "7", mtime := 0 }]
      [("7", fixRecord "7" "f.md")])
    { originalLine := "- [ ] Call mom #todoist" ++ idCommentFor "7"
      lineNumber := 0
      filePath := "f.md"
      content := "Call mom"
      isCompleted := false
      todoistId := some "7"
      dueDate := none
      priority := TodoistPriority.NONE
      labels := []
      description := ""
      lastModified := 0 }
    (fixRemote "7" "Other text")
    rfl rfl rfl (by decide) rfl rfl (Or.inl (by decide)) rfl

/-- The cleanup loop only touches the record map: vault, conflicts and flag
are untouched. -/
theorem cleanupFold_skeleton (linked : List (String × ParsedObsidianTask))
    (rm : List (String × RemoteTask)) (st : EngineState) :
    (rm.foldl (cleanupStep linked) st).vault = st.vault ∧
    (rm.foldl (cleanupStep linked) st).pendingConflicts = st.pendingConflicts ∧
    (rm.foldl (cleanupStep linked) st).isSyncing = st.isSyncing := by
  induction rm generalizing st with
  | nil => exact ⟨rfl, rfl, rfl⟩
  | cons hd tl ih =>
    simp only [List.foldl_cons]
    have h2 := ih (cleanupStep linked st hd)
    have hstep : (cleanupStep linked st hd).vault = st.vault ∧
        (cleanupStep linked st hd).pendingConflicts = st.pendingConflicts ∧
        (cleanupStep linked st hd).isSyncing = st.isSyncing := by
      unfold cleanupStep
      split
      · exact ⟨rfl, rfl, rfl⟩
      · exact ⟨rfl, rfl, rfl⟩
    exact ⟨h2.1.trans hstep.1, h2.2.1.trans hstep.2.1, h2.2.2.trans hstep.2.2⟩

/-- C6: a linked local task whose remote id is absent from the fetched
remote map: the pass rewrites the local line through the completion codec,
removes the id's record from the sync state, counts one completion, and the
only external actions are the fetch and the file write. -/
theorem performSync_remote_deleted_completes_local (gw : TodoistGateway)
    (settings : TodoistSyncSettings) (now : Nat) (st : EngineState)
    (t : ParsedObsidianTask) (id : String) (ts : List RemoteTask) (c : String)
    (h1 : st.isSyncing = false) (h2 : gw.initialized = true)
    (h3 : gw.getTasks = Except.ok ts)
    (hscan : getAllObsidianTasks st.vault settings.syncTag = [t])
    (hid : t.todoistId = some id)
    (hno : alistLookup (buildRemoteMap ts) id = none)
    (hv : vaultRead st.vault t.filePath = some c)
    (hlt : t.lineNumber < (splitLines c).length) :
    (performSync gw settings now st).1 =
      { created := 0, updated := 0, completed := 1, conflicts := 0, errors := [] } ∧
    alistLookup (performSync gw settings now st).2.1.syncState.tasks id = none ∧
    (performSync gw settings now st).2.1.vault =
      vaultWrite st.vault t.filePath
        (joinSep "\n" ((splitLines c).set t.lineNumber
          (updateTaskCompletion ((splitLines c).getD t.lineNumber "") true))) ∧
    (performSync gw settings now st).2.2 =
      [SyncAction.fetchTasks, SyncAction.writeFile t.filePath] := by
  obtain ⟨v, ⟨tks, lfs⟩, pc, sy⟩ := st
  simp only at h1 hscan hv ⊢
  subst h1
  unfold performSync
  rw [if_neg (by simp), if_neg (by simp [h2]), h3]
  simp only [hscan, partitionTasks, List.foldl_cons, List.foldl_nil, partitionStep, hid,
    alistUpsert, List.foldl_nil]
  simp only [linkedStep, hno, markObsidianTaskCompleted, updateObsidianTaskLine, hv]
  rw [if_pos hlt]
  refine ⟨by simp [emptyResult], ?_, ?_, by simp⟩
  · exact cleanupFold_preserves_none _ _ _ _ (alistLookup_erase_self _ _)
  · exact (cleanupFold_skeleton _ _ _).1

/-- Closed instance of the deletion-detection behaviour. -/
theorem performSync_remote_deleted_completes_local_witness :
    (performSync fixGatewayOk fixSettings 99
      (fixState
        [{ path := "f.md", content := "- [ ] Call mom #todoist" ++ idCommentFor "7", mtime := 0 }]
        [("7", fixRecord "7" "f.md")])).1 =
      { created := 0, updated := 0, completed := 1, conflicts := 0, errors := [] } ∧
    alistLookup
      (performSync fixGatewayOk fixSettings 99
        (fixState
          [{ path := "f.md", content := "- [ ] Call mom #todoist" ++ idCommentFor "7", mtime := 0 }]
          [("7", fixRecord "7" "f.md")])).2.1.syncState.tasks "7" = none ∧
    (performSync fixGatewayOk fixSettings 99
      (fixState
        [{ path := "f.md", content := "- [ ] Call mom #todoist" ++ idCommentFor "7", mtime := 0 }]
        [("7", fixRecord "7" "f.md")])).2.1.vault =
      vaultWrite
        (fixState
          [{ path := "f.md", content := "- [ ] Call mom #todoist" ++ idCommentFor "7", mtime := 0 }]
          [("7", fixRecord "7" "f.md")]).vault
        "f.md"
        (joinSep "\n"
          ((splitLines ("- [ ] Call mom #todoist" ++ idCommentFor "7")).set 0
            (updateTaskCompletion
              ((splitLines ("- [ ] Call mom #todoist" ++ idCommentFor "7")).getD 0 "") true))) ∧
    (performSync fixGatewayOk fixSettings 99
      (fixState
        [{ path := "f.md", content := "- [ ] Call mom #todoist" ++ idCommentFor "7", mtime := 0 }]
        [("7", fixRecord "7" "f.md")])).2.2 =
      [SyncAction.fetchTasks, SyncAction.writeFile "f.md"] :=
  performSync_remote_deleted_completes_local fixGatewayOk fixSettings 99
    (fixState
      [{ path := "f.md", content := "- [ ] Call mom #todoist" ++ idCommentFor "7", mtime := 0 }]
      [("7", fixRecord "7" "f.md")])
    { originalLine := "- [ ] Call mom #todoist" ++ idCommentFor "7"
      lineNumber := 0
      filePath := "f.md"
      content := "Call mom"
      isCompleted := false
      todoistId := some "7"
      dueDate := none
      priority := TodoistPriority.NONE
      labels := []
      description := ""
      lastModified := 0 }
    "7" [] ("- [ ] Call mom #todoist" ++ idCommentFor "7")
    rfl rfl rfl (by decide) rfl rfl (by decide) (by decide)

/-- C7 counterexample: the gateway create call succeeds (the trace shows
the create, the line rewrite and the close attempt) but the close call for
the already-completed local task fails, and `created` stays 0 with the
failure wrapped into `errors` — so the counter is not incremented on create
success alone, contrary to the claim. -/
theorem performSync_created_counter_counterexample :
    (performSync
      { fixGatewayOk with completeTask := fun _ => Except.error "network down" }
      fixSettings 99
      (fixState [{ path := "f.md", content := "- [x] Call mom #todoist", mtime := 0 }] [])).1.created = 0 ∧
    (performSync
      { fixGatewayOk with completeTask := fun _ => Except.error "network down" }
      fixSettings 99
      (fixState [{ path := "f.md", content := "- [x] Call mom #todoist", mtime := 0 }] [])).1.errors =
      ["Failed to create task: Call mom - network down"] ∧
    (performSync
      { fixGatewayOk with completeTask := fun _ => Except.error "network down" }
      fixSettings 99
      (fixState [{ path := "f.md", content := "- [x] Call mom #todoist", mtime := 0 }] [])).2.2 =
      [SyncAction.fetchTasks, SyncAction.createTask "Call mom",
       SyncAction.writeFile "f.md", SyncAction.closeTask "555"] ∧
    TodoistGateway.createTask
      { fixGatewayOk with completeTask := fun _ => Except.error "network down" }
      "Call mom"
      (mkCreateOptions fixSettings
        { originalLine := "- [x] Call mom #todoist", lineNumber := 0, filePath := "f.md",
          content := "Call mom", isCompleted := true, todoistId := none, dueDate := none,
          priority := TodoistPriority.NONE, labels := [], description := "",
          lastModified := 0 }) = Except.ok (fixRemote "555" "Call mom") :=
  ⟨by decide, by decide, by decide, rfl⟩

/-- C7 (amended): for a single unlinked task, `created` is incremented
exactly when the whole per-task creation routine of `createTodoistTask`
succeeds — the gateway create call, the source-line rewrite and, for a
locally-completed task, the close call.  A failure anywhere in the routine
(even after the create call succeeded) leaves `created` at zero and appends
one wrapped error. -/
theorem performSync_created_iff_creation_routine_ok (gw : TodoistGateway)
    (settings : TodoistSyncSettings) (now : Nat) (st : EngineState)
    (t : ParsedObsidianTask) (ts : List RemoteTask)
    (h1 : st.isSyncing = false) (h2 : gw.initialized = true)
    (h3 : gw.getTasks = Except.ok ts)
    (hscan : getAllObsidianTasks st.vault settings.syncTag = [t])
    (hid : t.todoistId = none) :
    ((createTodoistTask gw settings now t { st with isSyncing := true }).2.2 = none →
      (performSync gw settings now st).1.created = 1 ∧
      (performSync gw settings now st).1.errors = []) ∧
    (∀ e, (createTodoistTask gw settings now t { st with isSyncing := true }).2.2 = some e →
      (performSync gw settings now st).1.created = 0 ∧
      (performSync gw settings now st).1.errors =
        ["Failed to create task: " ++ t.content ++ " - " ++ e]) := by
  obtain ⟨v, ⟨tks, lfs⟩, pc, sy⟩ := st
  simp only at h1 hscan ⊢
  subst h1
  unfold performSync
  rw [if_neg (by simp), if_neg (by simp [h2]), h3]
  simp only [hscan, partitionTasks, List.foldl_cons, List.foldl_nil, partitionStep, hid,
    List.nil_append, creationStep]
  rcases hct : createTodoistTask gw settings now t
      { vault := v, syncState := { tasks := tks, lastFullSync := lfs },
        pendingConflicts := pc, isSyncing := true } with ⟨st2, acts, err⟩
  cases err with
  | none =>
    refine ⟨fun _ => ⟨?_, ?_⟩, fun e he => ?_⟩
    · simp [emptyResult]
    · simp [emptyResult]
    · exact absurd he (by simp)
  | some e0 =>
    refine ⟨fun hnone => ?_, fun e he => ?_⟩
    · exact absurd hnone (by simp)
    · simp only [Option.some_inj] at he
      subst he
      exact ⟨by simp [emptyResult], by simp [emptyResult]⟩

/-- Closed instance of the amended creation-counter property. -/
theorem performSync_created_iff_creation_routine_ok_witness :
    ((createTodoistTask fixGatewayOk fixSettings 99
        { originalLine := "- [ ] Call mom #todoist", lineNumber := 0, filePath := "f.md",
          content := "Call mom", isCompleted := false, todoistId := none, dueDate := none,
          priority := TodoistPriority.NONE, labels := [], description := "",
          lastModified := 0 }
        { fixState [{ path := "f.md", content := "- [ ] Call mom #todoist", mtime := 0 }] [] with
            isSyncing := true }).2.2 = none →
      (performSync fixGatewayOk fixSettings 99
        (fixState [{ path := "f.md", content := "- [ ] Call mom #todoist", mtime := 0 }] [])).1.created = 1 ∧
      (performSync fixGatewayOk fixSettings 99
        (fixState [{ path := "f.md", content := "- [ ] Call mom #todoist", mtime := 0 }] [])).1.errors = []) ∧
    (∀ e, (createTodoistTask fixGatewayOk fixSettings 99
        { originalLine := "- [ ] Call mom #todoist", lineNumber := 0, filePath := "f.md",
          content := "Call mom", isCompleted := false, todoistId := none, dueDate := none,
          priority := TodoistPriority.NONE, labels := [], description := "",
          lastModified := 0 }
        { fixState [{ path := "f.md", content := "- [ ] Call mom #todoist", mtime := 0 }] [] with
            isSyncing := true }).2.2 = some e →
      (performSync fixGatewayOk fixSettings 99
        (fixState [{ path := "f.md", content := "- [ ] Call mom #todoist", mtime := 0 }] [])).1.created = 0 ∧
      (performSync fixGatewayOk fixSettings 99
        (fixState [{ path := "f.md", content := "- [ ] Call mom #todoist", mtime := 0 }] [])).1.errors =
        ["Failed to create task: " ++ "Call mom" ++ " - " ++ e]) :=
  performSync_created_iff_creation_routine_ok fixGatewayOk fixSettings 99
    (fixState [{ path := "f.md", content := "- [ ] Call mom #todoist", mtime := 0 }] [])
    { originalLine := "- [ ] Call mom #todoist", lineNumber := 0, filePath := "f.md",
      content := "Call mom", isCompleted := false, todoistId := none, dueDate := none,
      priority := TodoistPriority.NONE, labels := [], description := "",
      lastModified := 0 }
    [] rfl rfl rfl (by decide) rfl

theorem splitFirst_sound (f : Matcher)
    (hf : ∀ l a r, f l = some (a, r) → l = a ++ r)
    (l p a r : List Char) (h : splitFirst f l = some (p, a, r)) :
    l = p ++ a ++ r ∧ f (a ++ r) = some (a, r) := by
  induction l generalizing p with
  | nil =>
    simp only [splitFirst] at h
    cases hf0 : f [] with
    | none => rw [hf0] at h; exact absurd h (by simp)
    | some x =>
      obtain ⟨a0, r0⟩ := x
      rw [hf0] at h
      simp only [Option.some_inj, Prod.mk.injEq] at h
      obtain ⟨rfl, rfl, rfl⟩ := h
      have h2 := hf [] a0 r0 hf0
      exact ⟨by simpa using h2, by rw [← h2]; exact hf0⟩
  | cons c t ih =>
    simp only [splitFirst] at h
    cases hf0 : f (c :: t) with
    | some x =>
      obtain ⟨a0, r0⟩ := x
      rw [hf0] at h
      simp only [Option.some_inj, Prod.mk.injEq] at h
      obtain ⟨rfl, rfl, rfl⟩ := h
      have h2 := hf (c :: t) a0 r0 hf0
      exact ⟨by simpa using h2, by rw [← h2]; exact hf0⟩
    | none =>
      rw [hf0] at h
      cases hsp : splitFirst f t with
      | none => rw [hsp] at h; exact absurd h (by simp)
      | some y =>
        obtain ⟨p1, a1, r1⟩ := y
        rw [hsp] at h
        simp only [Option.map_some', Option.some_inj, Prod.mk.injEq] at h
        obtain ⟨hp, ha, hr⟩ := h
        subst ha
        subst hr
        subst hp
        obtain ⟨ht, hfar⟩ := ih p1 hsp
        constructor
        · rw [ht]; simp
        · exact hfar

theorem splitFirst_eq_none_iff (f : Matcher) (l : List Char) :
    splitFirst f l = none ↔ ∀ s, s.IsSuffix l → f s = none := by
  induction l with
  | nil =>
    simp only [splitFirst]
    constructor
    · intro h s hs
      rw [List.suffix_nil.mp hs]
      cases hf0 : f [] with
      | none => rfl
      | some x => obtain ⟨a, r⟩ := x; rw [hf0] at h; exact absurd h (by simp)
    · intro h
      rw [h [] List.nil_suffix]
  | cons c t ih =>
    constructor
    · intro h s hs
      simp only [splitFirst] at h
      cases hf0 : f (c :: t) with
      | some x => obtain ⟨a, r⟩ := x; rw [hf0] at h; exact absurd h (by simp)
      | none =>
        rw [hf0] at h
        rcases List.suffix_cons_iff.mp hs with heq | hsuf
        · rw [heq]; exact hf0
        · have h2 : splitFirst f t = none := by
            cases hsp : splitFirst f t with
            | none => rfl
            | some y => rw [hsp] at h; exact absurd h (by simp)
          exact (ih.mp h2) s hsuf
    · intro h
      have h1 := h (c :: t) (List.suffix_refl _)
      have h2 : splitFirst f t = none :=
        ih.mpr fun s hs => h s (hs.trans (List.suffix_cons _ _))
      simp only [splitFirst, h1, h2]
      rfl

theorem splitFirst_append_left_none (f : Matcher) (p q : List Char)
    (h : ∀ s, s.IsSuffix p → s ≠ [] → f (s ++ q) = none) :
    splitFirst f (p ++ q) =
      (splitFirst f q).map fun x => (p ++ x.1, x.2.1, x.2.2) := by
  induction p with
  | nil =>
    simp only [List.nil_append]
    cases hsp : splitFirst f q with
    | none => simp
    | some y => obtain ⟨p1, a1, r1⟩ := y; simp
  | cons c t ih =>
    have hf0 : f (c :: (t ++ q)) = none := h (c :: t) (List.suffix_refl _) (by simp)
    have ih2 := ih fun s hs hne => h s (hs.trans (List.suffix_cons _ _)) hne
    show splitFirst f (c :: (t ++ q)) = _
    simp only [splitFirst, hf0, ih2]
    cases hsp : splitFirst f q with
    | none => simp
    | some y => obtain ⟨p1, a1, r1⟩ := y; simp


theorem countBoxes_cons (c : Char) (t : List Char) :
    countBoxes (c :: t) = (if isBoxAt (c :: t) then 1 else 0) + countBoxes t := rfl

theorem countBoxes_suffix_le (l s : List Char) (hs : s.IsSuffix l) :
    countBoxes s ≤ countBoxes l := by
  induction l with
  | nil => rw [List.suffix_nil.mp hs]
  | cons c t ih =>
    rcases List.suffix_cons_iff.mp hs with heq | hsuf
    · rw [heq]
    · refine le_trans (ih hsuf) ?_
      rw [countBoxes_cons]
      exact Nat.le_add_left _ _

theorem isBoxAt_pos_one (s : List Char) (h : isBoxAt s = true) : 1 ≤ countBoxes s := by
  match s with
  | [] => simp [isBoxAt] at h
  | [c0] => simp [isBoxAt] at h
  | [c0, c1] => simp [isBoxAt] at h
  | c0 :: c1 :: c2 :: r => rw [countBoxes_cons, if_pos h]; omega

theorem isBoxAt_cons_append_box (c : Char) (p1 : List Char) (w : Char) (r : List Char) :
    isBoxAt (c :: (p1 ++ '[' :: w :: ']' :: r)) = isBoxAt (c :: p1) := by
  match p1 with
  | [] =>
    show isBoxAt (c :: '[' :: w :: ']' :: r) = isBoxAt [c]
    simp [isBoxAt, boxChar, isJsWs]
  | [d] =>
    show isBoxAt (c :: d :: '[' :: w :: ']' :: r) = isBoxAt [c, d]
    simp [isBoxAt]
  | d :: e :: p2 =>
    show isBoxAt (c :: d :: e :: (p2 ++ '[' :: w :: ']' :: r)) = isBoxAt (c :: d :: e :: p2)
    simp [isBoxAt]

theorem countBoxes_mid_tail (w : Char) (r : List Char) :
    countBoxes (w :: ']' :: r) = countBoxes r := by
  have h1 : isBoxAt (w :: ']' :: r) = false := by
    match r with
    | [] => rfl
    | r0 :: r2 => simp [isBoxAt, boxChar, isJsWs]
  have h2 : isBoxAt (']' :: r) = false := by
    match r with
    | [] => rfl
    | [r0] => rfl
    | r0 :: r1 :: r2 => simp [isBoxAt]
  rw [countBoxes_cons, h1, countBoxes_cons, h2]
  simp

theorem countBoxes_append_box (p : List Char) (w : Char) (r : List Char) :
    countBoxes (p ++ '[' :: w :: ']' :: r) =
      countBoxes p + ((if boxChar w then 1 else 0) + countBoxes r) := by
  induction p with
  | nil =>
    show countBoxes ('[' :: w :: ']' :: r) = _
    have hb : isBoxAt ('[' :: w :: ']' :: r) = boxChar w := by
      simp [isBoxAt]
    rw [countBoxes_cons, hb, countBoxes_mid_tail]
    simp [countBoxes]
  | cons c t ih =>
    show countBoxes (c :: (t ++ '[' :: w :: ']' :: r)) = _
    rw [countBoxes_cons, isBoxAt_cons_append_box, ih, countBoxes_cons]
    cases hb : isBoxAt (c :: t) <;> simp_arith


theorem tryOpenBox_sound (l a r : List Char) (h : tryOpenBox l = some (a, r)) :
    l = a ++ r := by
  match l with
  | [] => simp [tryOpenBox] at h
  | [c0] => simp [tryOpenBox] at h
  | [c0, c1] => simp [tryOpenBox] at h
  | c0 :: c1 :: c2 :: r2 =>
    unfold tryOpenBox at h
    simp only at h
    split at h
    · rename_i hc
      obtain ⟨hc0, hc1, hc2⟩ := hc
      simp only [Option.some_inj, Prod.mk.injEq] at h
      obtain ⟨ha, hr⟩ := h
      subst ha; subst hr; subst hc0; subst hc2
      rfl
    · exact absurd h (by simp)

theorem tryCheckedBox_sound (l a r : List Char) (h : tryCheckedBox l = some (a, r)) :
    l = a ++ r := by
  match l with
  | [] => simp [tryCheckedBox] at h
  | [c0] => simp [tryCheckedBox] at h
  | [c0, c1] => simp [tryCheckedBox] at h
  | c0 :: c1 :: c2 :: r2 =>
    unfold tryCheckedBox at h
    simp only at h
    split at h
    · rename_i hc
      obtain ⟨hc0, hc1, hc2⟩ := hc
      simp only [Option.some_inj, Prod.mk.injEq] at h
      obtain ⟨ha, hr⟩ := h
      subst ha; subst hr; subst hc0; subst hc2
      rfl
    · exact absurd h (by simp)

theorem tryOpenBox_isBoxAt (s : List Char) (h : tryOpenBox s ≠ none) : isBoxAt s = true := by
  match s with
  | [] => simp [tryOpenBox] at h
  | [c0] => simp [tryOpenBox] at h
  | [c0, c1] => simp [tryOpenBox] at h
  | c0 :: c1 :: c2 :: r2 =>
    unfold tryOpenBox at h
    simp only at h
    split at h
    · rename_i hc
      obtain ⟨hc0, hc1, hc2⟩ := hc
      subst hc0; subst hc2
      simp [isBoxAt, boxChar, hc1]
    · simp at h

theorem tryCheckedBox_isBoxAt (s : List Char) (h : tryCheckedBox s ≠ none) : isBoxAt s = true := by
  match s with
  | [] => simp [tryCheckedBox] at h
  | [c0] => simp [tryCheckedBox] at h
  | [c0, c1] => simp [tryCheckedBox] at h
  | c0 :: c1 :: c2 :: r2 =>
    unfold tryCheckedBox at h
    simp only at h
    split at h
    · rename_i hc
      obtain ⟨hc0, hc1, hc2⟩ := hc
      subst hc0; subst hc2
      rcases hc1 with hx | hx <;> subst hx <;> simp [isBoxAt, boxChar]
    · simp at h

theorem tryOpenBox_shape (l a r : List Char) (h : tryOpenBox l = some (a, r)) :
    ∃ w, a = ['[', w, ']'] ∧ boxChar w = true := by
  match l with
  | [] => simp [tryOpenBox] at h
  | [c0] => simp [tryOpenBox] at h
  | [c0, c1] => simp [tryOpenBox] at h
  | c0 :: c1 :: c2 :: r2 =>
    unfold tryOpenBox at h
    simp only at h
    split at h
    · rename_i hc
      simp only [Option.some_inj, Prod.mk.injEq] at h
      exact ⟨c1, h.1.symm, by simp [boxChar, hc.2.1]⟩
    · exact absurd h (by simp)

theorem tryCheckedBox_shape (l a r : List Char) (h : tryCheckedBox l = some (a, r)) :
    ∃ w, a = ['[', w, ']'] ∧ boxChar w = true := by
  match l with
  | [] => simp [tryCheckedBox] at h
  | [c0] => simp [tryCheckedBox] at h
  | [c0, c1] => simp [tryCheckedBox] at h
  | c0 :: c1 :: c2 :: r2 =>
    unfold tryCheckedBox at h
    simp only at h
    split at h
    · rename_i hc
      simp only [Option.some_inj, Prod.mk.injEq] at h
      refine ⟨c1, h.1.symm, ?_⟩
      rcases hc.2.1 with hx | hx <;> subst hx <;> simp [boxChar]
    · exact absurd h (by simp)

theorem splitFirst_none_of_boxfree (f : Matcher)
    (hf : ∀ s, f s ≠ none → isBoxAt s = true)
    (l : List Char) (h0 : countBoxes l = 0) : splitFirst f l = none := by
  rw [splitFirst_eq_none_iff]
  intro s hs
  by_contra hne
  have hb := isBoxAt_pos_one s (hf s hne)
  have hle := countBoxes_suffix_le l s hs
  omega


theorem replaceFirst_box_idem (f : Matcher)
    (hsound : ∀ l a r, f l = some (a, r) → l = a ++ r)
    (hbox : ∀ s, f s ≠ none → isBoxAt s = true)
    (hshape : ∀ l a r, f l = some (a, r) → ∃ w, a = ['[', w, ']'] ∧ boxChar w = true)
    (x : Char) (hfx : ∀ r, f ('[' :: x :: ']' :: r) = none)
    (l : List Char) (h : countBoxes l ≤ 1) :
    replaceFirst f ['[', x, ']'] (replaceFirst f ['[', x, ']'] l) =
      replaceFirst f ['[', x, ']'] l ∧
    (replaceFirst f ['[', x, ']'] l = l ∨
      ∃ A w B, l = A ++ '[' :: w :: ']' :: B ∧ boxChar w = true ∧
        replaceFirst f ['[', x, ']'] l = A ++ '[' :: x :: ']' :: B) := by
  cases hsp : splitFirst f l with
  | none =>
    have hid : replaceFirst f ['[', x, ']'] l = l := by
      unfold replaceFirst
      rw [hsp]
    rw [hid]
    exact ⟨hid, Or.inl rfl⟩
  | some y =>
    obtain ⟨p, a, r⟩ := y
    obtain ⟨hl, hfar⟩ := splitFirst_sound f hsound l p a r hsp
    obtain ⟨w, haw, hbw⟩ := hshape _ _ _ hfar
    subst haw
    have hl2 : l = p ++ '[' :: w :: ']' :: r := by simpa using hl
    have hrep : replaceFirst f ['[', x, ']'] l = p ++ '[' :: x :: ']' :: r := by
      unfold replaceFirst
      rw [hsp]
      simp
    have hcount : countBoxes p = 0 ∧ countBoxes r = 0 := by
      rw [hl2, countBoxes_append_box, hbw] at h
      simp only [if_true] at h
      omega
    have hmid : splitFirst f ('[' :: x :: ']' :: r) = none := by
      have h1 : f ('[' :: x :: ']' :: r) = none := hfx r
      have h2 : f (x :: ']' :: r) = none := by
        by_contra hne
        have hb := hbox _ hne
        have hfalse : isBoxAt (x :: ']' :: r) = false := by
          match r with
          | [] => rfl
          | r0 :: r2 => simp [isBoxAt, boxChar, isJsWs]
        rw [hfalse] at hb
        exact absurd hb (by simp)
      have h3 : f (']' :: r) = none := by
        by_contra hne
        have hb := hbox _ hne
        have hfalse : isBoxAt (']' :: r) = false := by
          match r with
          | [] => rfl
          | [r0] => rfl
          | r0 :: r1 :: r2 => simp [isBoxAt]
        rw [hfalse] at hb
        exact absurd hb (by simp)
      have h4 : splitFirst f r = none := splitFirst_none_of_boxfree f hbox r hcount.2
      simp only [splitFirst, h1, h2, h3, h4]
      rfl
    have hside : ∀ s, s.IsSuffix p → s ≠ [] → f (s ++ '[' :: x :: ']' :: r) = none := by
      intro s hs hne
      by_contra hne2
      have hb := hbox _ hne2
      obtain ⟨c, s1, rfl⟩ : ∃ c s1, s = c :: s1 := by
        cases s with
        | nil => exact absurd rfl hne
        | cons c s1 => exact ⟨c, s1, rfl⟩
      rw [show (c :: s1) ++ '[' :: x :: ']' :: r = c :: (s1 ++ '[' :: x :: ']' :: r) from rfl,
        isBoxAt_cons_append_box] at hb
      have h5 := isBoxAt_pos_one _ hb
      have h6 := countBoxes_suffix_le p (c :: s1) hs
      omega
    have hnone : splitFirst f (p ++ '[' :: x :: ']' :: r) = none := by
      rw [splitFirst_append_left_none f p _ hside, hmid]
      rfl
    constructor
    · rw [hrep]
      unfold replaceFirst
      rw [hnone]
    · exact Or.inr ⟨p, w, r, hl2, hbw, hrep⟩


/-- C8 counterexample: on a line containing two open checkboxes the codec
rewrite is not idempotent and does not change only the checkbox glyph: the
second application flips the second token as well. -/
theorem updateTaskCompletion_not_idempotent_cex :
    updateTaskCompletion (updateTaskCompletion "- [ ] a [ ] b" true) true ≠
      updateTaskCompletion "- [ ] a [ ] b" true ∧
    updateTaskCompletion "- [ ] a [ ] b" true = "- [x] a [ ] b" ∧
    updateTaskCompletion (updateTaskCompletion "- [ ] a [ ] b" true) true = "- [x] a [x] b" := by
  refine ⟨by decide, by decide, by decide⟩

/-- C8 (amended): on every line containing at most one checkbox token,
`updateTaskCompletion` is idempotent and changes only the checkbox glyph:
either the line is returned unchanged, or it decomposes around a single
checkbox token whose glyph alone is replaced. -/
theorem updateTaskCompletion_single_box (line : String) (b : Bool)
    (h : countBoxes line.data ≤ 1) :
    updateTaskCompletion (updateTaskCompletion line b) b = updateTaskCompletion line b ∧
    (updateTaskCompletion line b = line ∨
      ∃ A w B, line.data = A ++ '[' :: w :: ']' :: B ∧ boxChar w = true ∧
        (updateTaskCompletion line b).data =
          A ++ '[' :: (if b then 'x' else ' ') :: ']' :: B) := by
  cases b with
  | true =>
    obtain ⟨hidem, hdec⟩ := replaceFirst_box_idem tryOpenBox tryOpenBox_sound
      tryOpenBox_isBoxAt tryOpenBox_shape 'x'
      (fun r => by simp [tryOpenBox, isJsWs]) line.data h
    constructor
    · exact congrArg String.mk hidem
    · rcases hdec with hsame | ⟨A, w, B, h1, h2, h3⟩
      · exact Or.inl (congrArg String.mk hsame)
      · exact Or.inr ⟨A, w, B, h1, h2, h3⟩
  | false =>
    obtain ⟨hidem, hdec⟩ := replaceFirst_box_idem tryCheckedBox tryCheckedBox_sound
      tryCheckedBox_isBoxAt tryCheckedBox_shape ' '
      (fun r => by simp [tryCheckedBox]) line.data h
    constructor
    · exact congrArg String.mk hidem
    · rcases hdec with hsame | ⟨A, w, B, h1, h2, h3⟩
      · exact Or.inl (congrArg String.mk hsame)
      · exact Or.inr ⟨A, w, B, h1, h2, h3⟩

/-- Closed instance of the single-checkbox rewrite property. -/
theorem updateTaskCompletion_single_box_witness :
    updateTaskCompletion (updateTaskCompletion "- [ ] Buy milk #todoist" true) true =
      updateTaskCompletion "- [ ] Buy milk #todoist" true ∧
    (updateTaskCompletion "- [ ] Buy milk #todoist" true = "- [ ] Buy milk #todoist" ∨
      ∃ A w B, ("- [ ] Buy milk #todoist" : String).data = A ++ '[' :: w :: ']' :: B ∧
        boxChar w = true ∧
        (updateTaskCompletion "- [ ] Buy milk #todoist" true).data =
          A ++ '[' :: (if true then 'x' else ' ') :: ']' :: B) :=
  updateTaskCompletion_single_box "- [ ] Buy milk #todoist" true (by decide)

theorem toLower_eq_hash (c : Char) (h : c.toLower = '#') : c = '#' := by
  unfold Char.toLower at h
  simp only [] at h
  by_cases hr : c.toNat ≥ 65 ∧ c.toNat ≤ 90
  · rw [if_pos hr] at h
    exfalso
    have hv : (c.toNat + 32).isValidChar := Or.inl (by omega)
    have h2 : (Char.ofNat (c.toNat + 32)).toNat = c.toNat + 32 := by
      rw [Char.ofNat, dif_pos hv]
      rfl
    rw [h] at h2
    have h3 : ('#').toNat = 35 := rfl
    omega
  · rwa [if_neg hr] at h

theorem takeWhile_append_stop (p : Char → Bool) (l s : List Char)
    (hl : ∀ c ∈ l, p c = true) (hs : ∀ c, s.head? = some c → p c = false) :
    (l ++ s).takeWhile p = l ∧ (l ++ s).dropWhile p = s := by
  induction l with
  | nil =>
    simp only [List.nil_append]
    cases s with
    | nil => exact ⟨rfl, rfl⟩
    | cons c t =>
      have hc := hs c rfl
      simp [List.takeWhile_cons, List.dropWhile_cons, hc]
  | cons c t ih =>
    have hc : p c = true := hl c (by simp)
    obtain ⟨h1, h2⟩ := ih (fun d hd => hl d (by simp [hd])) 
    simp [List.takeWhile_cons, List.dropWhile_cons, hc, h1, h2]

theorem dropWhile_append_all (p : Char → Bool) (A B : List Char)
    (hA : ∀ c ∈ A, p c = true) :
    (A ++ B).dropWhile p = B.dropWhile p := by
  induction A with
  | nil => rfl
  | cons c t ih =>
    have hc : p c = true := hA c (by simp)
    simp [List.dropWhile_cons, hc, ih fun d hd => hA d (by simp [hd])]

theorem dropWhile_append_stays (p : Char → Bool) (A B : List Char)
    (hA : A.dropWhile p ≠ []) :
    (A ++ B).dropWhile p = A.dropWhile p ++ B := by
  induction A with
  | nil => exact absurd rfl hA
  | cons c t ih =>
    by_cases hc : p c = true
    · rw [List.dropWhile_cons_of_pos hc] at hA
      simp [List.dropWhile_cons, hc, ih hA]
    · have hc2 : p c = false := by revert hc; cases p c <;> simp
      simp [List.dropWhile_cons, hc2]

theorem splitFirst_skip (f : Matcher) (tp : Char → Prop)
    (htrig : ∀ s, f s ≠ none → ∃ c, s.head? = some c ∧ tp c)
    (A B : List Char) (hA : ∀ c ∈ A, ¬ tp c) :
    splitFirst f (A ++ B) =
      (splitFirst f B).map fun x => (A ++ x.1, x.2.1, x.2.2) := by
  apply splitFirst_append_left_none
  intro s hs hne
  by_contra hne2
  obtain ⟨c, hc1, hc2⟩ := htrig _ hne2
  cases s with
  | nil => exact hne rfl
  | cons c0 s1 =>
    simp only [List.cons_append, List.head?_cons, Option.some_inj] at hc1
    subst hc1
    exact hA c0 (hs.subset (by simp)) hc2

theorem splitFirst_none_of_trigger (f : Matcher) (tp : Char → Prop)
    (htrig : ∀ s, f s ≠ none → ∃ c, s.head? = some c ∧ tp c)
    (l : List Char) (hl : ∀ c ∈ l, ¬ tp c) : splitFirst f l = none := by
  rw [splitFirst_eq_none_iff]
  intro s hs
  by_contra hne
  obtain ⟨c, hc1, hc2⟩ := htrig _ hne
  cases s with
  | nil => simp at hc1
  | cons c0 s1 =>
    simp only [List.head?_cons, Option.some_inj] at hc1
    subst hc1
    exact hl c0 (hs.subset (by simp)) hc2

theorem expectChars_append (ps rest : List Char) :
    expectChars ps (ps ++ rest) = some rest := by
  induction ps with
  | nil => rfl
  | cons c t ih => simp [expectChars, ih]


theorem tryTodoistId_trigger (s : List Char) (h : tryTodoistId s ≠ none) :
    ∃ c, s.head? = some c ∧ c = '<' := by
  cases s with
  | nil => simp [tryTodoistId, idOpenChars, expectChars] at h
  | cons c t =>
    refine ⟨c, rfl, ?_⟩
    by_contra hc
    unfold tryTodoistId at h
    have : expectChars idOpenChars (c :: t) = none := by
      simp [idOpenChars, expectChars, hc]
    rw [this] at h
    exact h rfl

theorem tryEmojiDate_trigger (g : Char) (s : List Char) (h : tryEmojiDate g s ≠ none) :
    ∃ c, s.head? = some c ∧ c = g := by
  cases s with
  | nil => simp [tryEmojiDate] at h
  | cons c t =>
    refine ⟨c, rfl, ?_⟩
    by_contra hc
    apply h
    simp [tryEmojiDate, hc]

theorem tryGlyph_trigger (g : Char) (s : List Char) (h : tryGlyph g s ≠ none) :
    ∃ c, s.head? = some c ∧ c = g := by
  cases s with
  | nil => simp [tryGlyph] at h
  | cons c t =>
    refine ⟨c, rfl, ?_⟩
    by_contra hc
    apply h
    simp [tryGlyph, hc]

theorem tryHashtag_trigger (s : List Char) (h : tryHashtag s ≠ none) :
    ∃ c, s.head? = some c ∧ c = '#' := by
  cases s with
  | nil => simp [tryHashtag] at h
  | cons c t =>
    refine ⟨c, rfl, ?_⟩
    by_contra hc
    apply h
    simp [tryHashtag, hc]

theorem tryLitCI_hash_trigger (mname : List Char) (s : List Char)
    (h : tryLitCI ('#' :: mname) s ≠ none) :
    ∃ c, s.head? = some c ∧ c = '#' := by
  cases s with
  | nil =>
    exfalso
    apply h
    unfold tryLitCI
    rw [if_neg]
    intro hcontra
    have := congrArg List.length hcontra
    simp [lowerList] at this
  | cons c t =>
    refine ⟨c, rfl, ?_⟩
    by_contra hc
    apply h
    unfold tryLitCI
    rw [if_neg]
    intro hcontra
    simp only [lowerList, List.length_cons, List.take_succ_cons, List.map_cons,
      List.cons.injEq] at hcontra
    exact hc (toLower_eq_hash c (by simpa using hcontra.1))

theorem tryTextDue_chars (s : List Char) (h : tryTextDue s ≠ none) :
    ∃ c0, s.head? = some c0 ∧ (c0 = 'd' ∨ c0 = 'D') ∧ s.get? 3 = some ':' := by
  unfold tryTextDue at h
  match s with
  | [] => simp [matchPreds, textDuePreds] at h
  | [c0] => simp [matchPreds, textDuePreds] at h
  | [c0, c1] => simp [matchPreds, textDuePreds] at h
  | [c0, c1, c2] => simp [matchPreds, textDuePreds] at h
  | c0 :: c1 :: c2 :: c3 :: t =>
    simp only [textDuePreds, matchPreds] at h
    refine ⟨c0, rfl, ?_, ?_⟩
    · by_cases h0 : charIn ['d', 'D'] c0 = true
      · revert h0
        simp [charIn]
      · rw [if_neg h0] at h
        simp at h
    · by_cases h0 : charIn ['d', 'D'] c0 = true
      · rw [if_pos h0] at h
        by_cases h1 : charIn ['u', 'U'] c1 = true
        · rw [if_pos h1] at h
          by_cases h2 : charIn ['e', 'E'] c2 = true
          · rw [if_pos h2] at h
            by_cases h3 : charIn [':'] c3 = true
            · have : c3 = ':' := by revert h3; simp [charIn]
              simp [this]
            · rw [if_neg h3] at h
              simp at h
          · rw [if_neg h2] at h
            simp at h
        · rw [if_neg h1] at h
          simp at h
      · rw [if_neg h0] at h
        simp at h



theorem digit_not_ws (c : Char) (h : c.isDigit = true) : isJsWs c = false := by
  by_contra hw
  have hw2 : isJsWs c = true := by revert hw; cases isJsWs c <;> simp
  have hcases : c = ' ' ∨ c = '\t' ∨ c = '\n' ∨ c = '\r' ∨ c = '\x0b' ∨ c = '\x0c' := by
    revert hw2
    simp only [isJsWs, Bool.or_eq_true, beq_iff_eq]
    tauto
  rcases hcases with rfl|rfl|rfl|rfl|rfl|rfl <;> exact absurd h (by decide)

theorem expectChars_self (ps : List Char) : expectChars ps ps = some [] := by
  have := expectChars_append ps []
  rwa [List.append_nil] at this

theorem tryDate10_exact (d tail : List Char) (hd : validDate10 d = true) :
    tryDate10 (d ++ tail) = some (d, tail) := by
  match d, hd with
  | [y1, y2, y3, y4, s1, m1, m2, s2, d1, d2], hd =>
    unfold validDate10 at hd
    simp only [tryDate10, List.cons_append, List.nil_append]
    rw [if_pos hd]

theorem validDate10_chars (d : List Char) (hd : validDate10 d = true) :
    ∀ c ∈ d, c.isDigit = true ∨ c = '-' := by
  match d, hd with
  | [y1, y2, y3, y4, s1, m1, m2, s2, d1, d2], hd =>
    unfold validDate10 at hd
    simp only [Bool.and_eq_true, beq_iff_eq] at hd
    intro c hc
    simp only [List.mem_cons, List.not_mem_nil, or_false] at hc
    rcases hc with rfl|rfl|rfl|rfl|rfl|rfl|rfl|rfl|rfl|rfl <;> tauto

theorem validDate10_head_digit (d : List Char) (hd : validDate10 d = true) :
    ∀ c, d.head? = some c → c.isDigit = true := by
  match d, hd with
  | [y1, y2, y3, y4, s1, m1, m2, s2, d1, d2], hd =>
    unfold validDate10 at hd
    simp only [Bool.and_eq_true, beq_iff_eq] at hd
    intro c hc
    simp only [List.head?_cons, Option.some_inj] at hc
    subst hc
    exact hd.1.1.1.1.1.1.1.1.1

theorem tryEmojiDate_exact (g : Char) (d tail : List Char)
    (hd : validDate10 d = true) :
    tryEmojiDate g (g :: ' ' :: (d ++ tail)) = some (d, tail) := by
  show (if g = g then tryDate10 (List.dropWhile isJsWs (' ' :: (d ++ tail))) else none) =
    some (d, tail)
  rw [if_pos rfl]
  have hws : List.dropWhile isJsWs (' ' :: (d ++ tail)) = d ++ tail := by
    rw [List.dropWhile_cons_of_pos (by decide)]
    cases d with
    | nil => simp [validDate10] at hd
    | cons c0 t0 =>
      rw [List.cons_append, List.dropWhile_cons_of_neg]
      have h0 := validDate10_head_digit _ hd c0 rfl
      simp [digit_not_ws c0 h0]
  rw [hws]
  exact tryDate10_exact d tail hd

theorem tryLitCI_exact (M S : List Char) : tryLitCI M (M ++ S) = some (M, S) := by
  unfold tryLitCI
  rw [if_pos (by rw [List.take_left])]
  rw [List.take_left, List.drop_left]

theorem tryHashtag_exact (mname S : List Char) (hm1 : mname ≠ [])
    (hm2 : ∀ c ∈ mname, isWordChar c = true)
    (hs : ∀ c, S.head? = some c → isWordChar c = false) :
    tryHashtag (('#' :: mname) ++ S) = some (mname, S) := by
  show (if '#' = '#' then
      if List.takeWhile isWordChar (mname ++ S) = [] then none
      else some (List.takeWhile isWordChar (mname ++ S), List.dropWhile isWordChar (mname ++ S))
    else none) = some (mname, S)
  rw [if_pos rfl]
  obtain ⟨h1, h2⟩ := takeWhile_append_stop isWordChar mname S hm2 hs
  simp only [h1, h2]
  rw [if_neg hm1]

theorem tryTodoistId_exact (i : List Char) (hne : i ≠ [])
    (hdig : ∀ c ∈ i, c.isDigit = true) :
    tryTodoistId (idOpenChars ++ ([' '] ++ (idLabelChars ++ (i ++ ([' '] ++ idCloseChars))))) =
      some (i, []) := by
  have h1 : List.dropWhile isJsWs ([' '] ++ (idLabelChars ++ (i ++ ([' '] ++ idCloseChars)))) =
      idLabelChars ++ (i ++ ([' '] ++ idCloseChars)) := by
    rw [show ([' '] ++ (idLabelChars ++ (i ++ ([' '] ++ idCloseChars)))) =
      ' ' :: (idLabelChars ++ (i ++ ([' '] ++ idCloseChars))) from rfl]
    rw [List.dropWhile_cons_of_pos (by decide)]
    rw [show idLabelChars ++ (i ++ ([' '] ++ idCloseChars)) =
      't' :: (['o', 'd', 'o', 'i', 's', 't', '-', 'i', 'd', ':'] ++ (i ++ ([' '] ++ idCloseChars))) from rfl]
    rw [List.dropWhile_cons_of_neg (by decide)]
  have h2 := takeWhile_append_stop Char.isDigit i ([' '] ++ idCloseChars) hdig
    (by intro c hc; simp at hc; subst hc; decide)
  have h3 : List.dropWhile isJsWs ([' '] ++ idCloseChars) = idCloseChars := by
    rw [show ([' '] ++ idCloseChars) = ' ' :: idCloseChars from rfl]
    rw [List.dropWhile_cons_of_pos (by decide)]
    rw [show idCloseChars = '-' :: ['-', '>'] from rfl]
    rw [List.dropWhile_cons_of_neg (by decide)]
  unfold tryTodoistId
  rw [expectChars_append, Option.some_bind, h1]
  rw [expectChars_append, Option.some_bind]
  have hid : List.dropWhile isJsWs (i ++ ([' '] ++ idCloseChars)) = i ++ ([' '] ++ idCloseChars) := by
    cases i with
    | nil => exact absurd rfl hne
    | cons c0 t0 =>
      rw [List.cons_append, List.dropWhile_cons_of_neg]
      have h0 := hdig c0 (by simp)
      simp [digit_not_ws c0 h0]
  rw [hid, h2.1, h2.2, h3, if_neg hne, expectChars_self, Option.some_bind]


theorem collapseWsAux_cons_ws_true (c : Char) (t : List Char) (hc : isJsWs c = true) :
    collapseWsAux true (c :: t) = collapseWsAux true t := by
  simp [collapseWsAux, hc]

theorem collapseWsAux_cons_ws_false (c : Char) (t : List Char) (hc : isJsWs c = true) :
    collapseWsAux false (c :: t) = ' ' :: collapseWsAux true t := by
  simp [collapseWsAux, hc]

theorem collapseWsAux_cons_nws (f : Bool) (c : Char) (t : List Char) (hc : isJsWs c = false) :
    collapseWsAux f (c :: t) = c :: collapseWsAux false t := by
  cases f <;> simp [collapseWsAux, hc]

theorem collapseWsAux_allws (S : List Char) (hS : ∀ c ∈ S, isJsWs c = true) :
    collapseWsAux true S = [] ∧
    (collapseWsAux false S = [] ∨ collapseWsAux false S = [' ']) := by
  induction S with
  | nil => exact ⟨rfl, Or.inl rfl⟩
  | cons c t ih =>
    have hc : isJsWs c = true := hS c (by simp)
    obtain ⟨ih1, _⟩ := ih fun d hd => hS d (by simp [hd])
    constructor
    · rw [collapseWsAux_cons_ws_true c t hc]
      exact ih1
    · rw [collapseWsAux_cons_ws_false c t hc, ih1]
      exact Or.inr rfl

theorem collapseWsAux_append_ws (S : List Char) (hS : ∀ c ∈ S, isJsWs c = true)
    (f : Bool) (l : List Char) :
    collapseWsAux f (l ++ S) = collapseWsAux f l ∨
    collapseWsAux f (l ++ S) = collapseWsAux f l ++ [' '] := by
  induction l generalizing f with
  | nil =>
    simp only [List.nil_append]
    cases f with
    | true =>
      rw [(collapseWsAux_allws S hS).1]
      exact Or.inl rfl
    | false =>
      rcases (collapseWsAux_allws S hS).2 with h | h
      · rw [h]; exact Or.inl rfl
      · rw [h]; exact Or.inr rfl
  | cons c t ih =>
    rw [show (c :: t) ++ S = c :: (t ++ S) from rfl]
    by_cases hc : isJsWs c = true
    · cases f with
      | true =>
        rw [collapseWsAux_cons_ws_true _ _ hc, collapseWsAux_cons_ws_true c t hc]
        exact ih true
      | false =>
        rw [collapseWsAux_cons_ws_false _ _ hc, collapseWsAux_cons_ws_false c t hc]
        rcases ih true with h | h
        · rw [h]; exact Or.inl rfl
        · rw [h]; exact Or.inr rfl
    · have hc2 : isJsWs c = false := by revert hc; cases isJsWs c <;> simp
      rw [collapseWsAux_cons_nws f _ _ hc2, collapseWsAux_cons_nws f c t hc2]
      rcases ih false with h | h
      · rw [h]; exact Or.inl rfl
      · rw [h]; exact Or.inr rfl

theorem trimWs_append_ws (X S : List Char) (hS : ∀ c ∈ S, isJsWs c = true) :
    trimWs (X ++ S) = trimWs X := by
  unfold trimWs
  by_cases hX : X.dropWhile isJsWs = []
  · have hXall : ∀ c ∈ X, isJsWs c = true := by
      intro c hc
      by_contra hfalse
      have : X.dropWhile isJsWs ≠ [] := by
        intro hcontra
        have := List.dropWhile_eq_nil_iff.mp hcontra
        exact hfalse (this c hc)
      exact this hX
    rw [dropWhile_append_all _ _ _ hXall]
    have hSdrop : S.dropWhile isJsWs = [] := List.dropWhile_eq_nil_iff.mpr hS
    rw [hSdrop, hX]
  · rw [dropWhile_append_stays _ _ _ hX, List.reverse_append]
    rw [dropWhile_append_all _ _ _ (by intro c hc; exact hS c (List.mem_reverse.mp hc))]

theorem normalizeWs_append_ws (l S : List Char) (hS : ∀ c ∈ S, isJsWs c = true) :
    normalizeWs (l ++ S) = normalizeWs l := by
  unfold normalizeWs collapseWs
  rcases collapseWsAux_append_ws S hS false l with h | h
  · rw [h]
  · rw [h, trimWs_append_ws _ [' '] (by intro c hc; simp at hc; subst hc; rfl)]

theorem replaceAllGo_step (f : Matcher) (repl : List Char) (n : Nat) (l p a r : List Char)
    (h : splitFirst f l = some (p, a, r)) :
    replaceAllGo f repl (n + 1) l = p ++ repl ++ replaceAllGo f repl n r := by
  simp only [replaceAllGo, h]

theorem replaceAllGo_nomatch (f : Matcher) (repl : List Char) (n : Nat) (l : List Char)
    (h : splitFirst f l = none) : replaceAllGo f repl n l = l := by
  cases n with
  | zero => rfl
  | succ m => simp only [replaceAllGo, h]

theorem scanFor_head (f : Matcher) (l a r : List Char) (h : f l = some (a, r)) :
    scanFor f l = some a := by
  cases l with
  | nil => simp [scanFor, splitFirst, h]
  | cons c t => simp [scanFor, splitFirst, h]

theorem scanFor_isSome_suffix (f : Matcher) (A B : List Char)
    (h : (scanFor f B).isSome = true) : (scanFor f (A ++ B)).isSome = true := by
  induction A with
  | nil => exact h
  | cons c t ih =>
    show (scanFor f (c :: (t ++ B))).isSome = true
    unfold scanFor splitFirst
    cases hf : f (c :: (t ++ B)) with
    | some x => simp
    | none =>
      unfold scanFor at ih
      cases hsp : splitFirst f (t ++ B) with
      | none => rw [hsp] at ih; simp at ih
      | some y => simp

theorem scanFor_skip (f : Matcher) (tp : Char → Prop)
    (htrig : ∀ s, f s ≠ none → ∃ c, s.head? = some c ∧ tp c)
    (A B : List Char) (hA : ∀ c ∈ A, ¬ tp c) :
    scanFor f (A ++ B) = scanFor f B := by
  unfold scanFor
  rw [splitFirst_skip f tp htrig A B hA]
  cases splitFirst f B with
  | none => rfl
  | some y => rfl

theorem scanFor_none_of_trigger (f : Matcher) (tp : Char → Prop)
    (htrig : ∀ s, f s ≠ none → ∃ c, s.head? = some c ∧ tp c)
    (l : List Char) (hl : ∀ c ∈ l, ¬ tp c) : scanFor f l = none := by
  unfold scanFor
  rw [splitFirst_none_of_trigger f tp htrig l hl]
  rfl

theorem replaceFirst_skip (f : Matcher) (tp : Char → Prop)
    (htrig : ∀ s, f s ≠ none → ∃ c, s.head? = some c ∧ tp c)
    (repl A B : List Char) (hA : ∀ c ∈ A, ¬ tp c) :
    replaceFirst f repl (A ++ B) = A ++ replaceFirst f repl B := by
  unfold replaceFirst
  rw [splitFirst_skip f tp htrig A B hA]
  cases hsp : splitFirst f B with
  | none => rfl
  | some y =>
    obtain ⟨p, a, r⟩ := y
    simp

theorem replaceFirst_nomatch (f : Matcher) (repl l : List Char)
    (h : splitFirst f l = none) : replaceFirst f repl l = l := by
  unfold replaceFirst
  rw [h]

theorem replaceFirst_none_of_trigger (f : Matcher) (tp : Char → Prop)
    (htrig : ∀ s, f s ≠ none → ∃ c, s.head? = some c ∧ tp c)
    (repl l : List Char) (hl : ∀ c ∈ l, ¬ tp c) : replaceFirst f repl l = l :=
  replaceFirst_nomatch f repl l (splitFirst_none_of_trigger f tp htrig l hl)

theorem replaceFirst_head (f : Matcher) (repl l a r : List Char) (h : f l = some (a, r)) :
    replaceFirst f repl l = repl ++ r := by
  unfold replaceFirst
  cases l with
  | nil => simp [splitFirst, h]
  | cons c t => simp [splitFirst, h]


theorem matchPreds_append_stop (ps : List (Char → Bool)) (l : List Char)
    (b0 : Char) (B : List Char) (hb : ∀ p ∈ ps, p b0 = false)
    (h : matchPreds ps l = none) : matchPreds ps (l ++ (b0 :: B)) = none := by
  induction ps generalizing l with
  | nil => simp [matchPreds] at h
  | cons p ps ih =>
    cases l with
    | nil =>
      simp only [List.nil_append, matchPreds]
      rw [if_neg]
      simp [hb p (by simp)]
    | cons c t =>
      simp only [matchPreds] at h
      simp only [List.cons_append, matchPreds]
      by_cases hc : p c = true
      · rw [if_pos hc] at h ⊢
        have ht : matchPreds ps t = none := by
          cases hmp : matchPreds ps t with
          | none => rfl
          | some y => rw [hmp] at h; simp at h
        have hrec := ih t (fun q hq => hb q (by simp [hq])) ht
        simp only [List.append_eq, hrec]
        rfl
      · rw [if_neg hc] at h ⊢

theorem tryTextDue_append_stop (l : List Char) (b0 : Char) (B : List Char)
    (hb : ∀ p ∈ textDuePreds, p b0 = false)
    (h : tryTextDue l = none) : tryTextDue (l ++ (b0 :: B)) = none := by
  unfold tryTextDue at h ⊢
  have hm : matchPreds textDuePreds l = none := by
    cases hmp : matchPreds textDuePreds l with
    | none => rfl
    | some y => rw [hmp] at h; simp at h
  rw [matchPreds_append_stop _ _ _ _ hb hm]
  rfl

theorem textDuePreds_reject_space : ∀ p ∈ textDuePreds, p ' ' = false := by
  intro p hp
  simp only [textDuePreds, List.mem_cons, List.not_mem_nil, or_false] at hp
  rcases hp with rfl|rfl|rfl|rfl|rfl|rfl|rfl|rfl|rfl|rfl|rfl|rfl|rfl|rfl <;> decide

theorem textDuePreds_reject_hash : ∀ p ∈ textDuePreds, p '#' = false := by
  intro p hp
  simp only [textDuePreds, List.mem_cons, List.not_mem_nil, or_false] at hp
  rcases hp with rfl|rfl|rfl|rfl|rfl|rfl|rfl|rfl|rfl|rfl|rfl|rfl|rfl|rfl <;> decide

theorem splitFirst_textDue_append (A : List Char) (b0 : Char) (B : List Char)
    (hA : splitFirst tryTextDue A = none)
    (hb : ∀ p ∈ textDuePreds, p b0 = false)
    (hB : splitFirst tryTextDue (b0 :: B) = none) :
    splitFirst tryTextDue (A ++ (b0 :: B)) = none := by
  rw [splitFirst_append_left_none tryTextDue A (b0 :: B) ?side, hB]
  · rfl
  · intro s hs hne
    have hsf : tryTextDue s = none :=
      (splitFirst_eq_none_iff tryTextDue A).mp hA s hs
    exact tryTextDue_append_stop s b0 B hb hsf

theorem splitFirst_textDue_allws (S : List Char) (hS : ∀ c ∈ S, c = ' ') :
    splitFirst tryTextDue S = none := by
  apply splitFirst_none_of_trigger tryTextDue (fun c => c = 'd' ∨ c = 'D')
  · intro s hne
    obtain ⟨c0, h1, h2, _⟩ := tryTextDue_chars s hne
    exact ⟨c0, h1, h2⟩
  · intro c hc hcontra
    have := hS c hc
    subst this
    rcases hcontra with h | h <;> exact absurd h (by decide)

theorem splitFirst_textDue_no_colon (X : List Char) (hX : ':' ∉ X) :
    splitFirst tryTextDue X = none := by
  rw [splitFirst_eq_none_iff]
  intro s hs
  by_contra hne
  obtain ⟨c0, h1, h2, h3⟩ := tryTextDue_chars s hne
  exact hX (hs.subset (List.get?_mem h3))

theorem splitFirst_textDue_colon_mid (Q R : List Char) (hQ : ':' ∉ Q) (hR : ':' ∉ R)
    (hlen : 3 ≤ Q.length)
    (hprev : ∀ c, Q.get? (Q.length - 3) = some c → c ≠ 'd' ∧ c ≠ 'D') :
    splitFirst tryTextDue (Q ++ ':' :: R) = none := by
  rw [splitFirst_eq_none_iff]
  intro s hs
  by_contra hne
  obtain ⟨c0, h1, h2, h3⟩ := tryTextDue_chars s hne
  obtain ⟨k, hk⟩ : ∃ k, s = (Q ++ ':' :: R).drop k := by
    rw [List.suffix_iff_eq_drop] at hs
    exact ⟨_, hs⟩
  subst hk
  rw [List.get?_drop] at h3
  have h0 : (List.drop k (Q ++ ':' :: R)).get? 0 = some c0 := by
    cases hdrop : List.drop k (Q ++ ':' :: R) with
    | nil => rw [hdrop] at h1; simp at h1
    | cons a t => rw [hdrop] at h1; simpa using h1
  have hhead : (Q ++ ':' :: R).get? k = some c0 := by
    have hdd := List.get?_drop (Q ++ ':' :: R) k 0
    rw [h0] at hdd
    simpa using hdd.symm
  rcases Nat.lt_trichotomy (k + 3) Q.length with hlt | heq | hgt
  · have : Q.get? (k + 3) = some ':' := by
      rw [← h3, List.get?_append hlt]
    exact hQ (List.get?_mem this)
  · have hk3 : k = Q.length - 3 := by omega
    have hklt : k < Q.length := by omega
    have : Q.get? k = some c0 := by
      rw [← hhead, List.get?_append hklt]
    rw [hk3] at this
    rcases h2 with rfl | rfl
    · exact (hprev _ this).1 rfl
    · exact (hprev _ this).2 rfl
  · have hge : Q.length ≤ k + 3 := by omega
    have : (':' :: R).get? (k + 3 - Q.length) = some ':' := by
      rw [← h3, List.get?_append_right hge]
    cases hidx : k + 3 - Q.length with
    | zero => omega
    | succ m =>
      rw [hidx] at this
      simp only [List.get?_cons_succ] at this
      exact hR (List.get?_mem this)

theorem contains_false_of_not_mem (l : List Char) (c : Char) (h : c ∉ l) :
    l.contains c = false := by
  by_contra hc
  have h2 : l.contains c = true := by revert hc; cases l.contains c <;> simp
  exact h (List.elem_iff.mp h2)

theorem contains_true_of_mem (l : List Char) (c : Char) (h : c ∈ l) :
    l.contains c = true := List.elem_iff.mpr h


theorem splitFirst_head (f : Matcher) (l a r : List Char) (h : f l = some (a, r)) :
    splitFirst f l = some ([], a, r) := by
  cases l with
  | nil => simp [splitFirst, h]
  | cons c t => simp [splitFirst, h]

theorem scanFor_eq_none (f : Matcher) (l : List Char) (h : splitFirst f l = none) :
    scanFor f l = none := by
  unfold scanFor
  rw [h]
  rfl

theorem collectHashtagsGo_nomatch (n : Nat) (l : List Char)
    (h : splitFirst tryHashtag l = none) : collectHashtagsGo n l = [] := by
  cases n with
  | zero => rfl
  | succ m => simp only [collectHashtagsGo, h]

theorem tryGlyph_head (g : Char) (t : List Char) : tryGlyph g (g :: t) = some ([g], t) := by
  simp [tryGlyph]

theorem mem_prioritySuffix (p : TodoistPriority) (c : Char) (hc : c ∈ prioritySuffix p) :
    c = ' ' ∨ c = highGlyph ∨ c = medGlyph ∨ c = lowGlyph := by
  cases p <;> simp [prioritySuffix] at hc <;> tauto

theorem notMem_prioritySuffix (p : TodoistPriority) (a : Char)
    (h1 : a ≠ ' ') (h2 : a ≠ highGlyph) (h3 : a ≠ medGlyph) (h4 : a ≠ lowGlyph) :
    a ∉ prioritySuffix p := by
  intro hc
  rcases mem_prioritySuffix p a hc with rfl | rfl | rfl | rfl
  exacts [h1 rfl, h2 rfl, h3 rfl, h4 rfl]

theorem mem_dsBlockL (dOpt : Option (List Char))
    (hdd : ∀ d, dOpt = some d → validDate10 d = true) (c : Char)
    (hc : c ∈ dsBlockL dOpt) :
    c = ' ' ∨ c = dueGlyph ∨ c.isDigit = true ∨ c = '-' := by
  cases dOpt with
  | none => simp [dsBlockL] at hc
  | some d =>
    have hv := hdd d rfl
    simp [dsBlockL] at hc
    rcases hc with rfl | rfl | rfl | hc
    · tauto
    · tauto
    · tauto
    · rcases validDate10_chars d hv c hc with h | h <;> tauto

theorem notMem_dsBlockL (dOpt : Option (List Char))
    (hdd : ∀ d, dOpt = some d → validDate10 d = true) (a : Char)
    (h1 : a ≠ ' ') (h2 : a ≠ dueGlyph) (h3 : a.isDigit = false) (h4 : a ≠ '-') :
    a ∉ dsBlockL dOpt := by
  intro hc
  rcases mem_dsBlockL dOpt hdd a hc with rfl | rfl | h | rfl
  · exact h1 rfl
  · exact h2 rfl
  · rw [h3] at h; exact Bool.noConfusion h
  · exact h4 rfl

theorem mem_isBlockL (iOpt : Option (List Char))
    (hid : ∀ i, iOpt = some i → i ≠ [] ∧ ∀ c ∈ i, c.isDigit = true) (c : Char)
    (hc : c ∈ isBlockL iOpt) :
    c = ' ' ∨ c.isDigit = true ∨ c = '<' ∨ c = '!' ∨ c = '-' ∨ c = '>' ∨
    c = 't' ∨ c = 'o' ∨ c = 'd' ∨ c = 'i' ∨ c = 's' ∨ c = ':' := by
  cases iOpt with
  | none => simp [isBlockL] at hc
  | some i =>
    obtain ⟨-, hdig⟩ := hid i rfl
    have hdigc : c ∈ i → c.isDigit = true := hdig c
    simp [isBlockL, idOpenChars, idLabelChars, idCloseChars] at hc
    tauto

theorem notMem_isBlockL (iOpt : Option (List Char))
    (hid : ∀ i, iOpt = some i → i ≠ [] ∧ ∀ c ∈ i, c.isDigit = true) (a : Char)
    (h1 : a ≠ ' ') (h2 : a.isDigit = false)
    (h3 : a ∉ ['<', '!', '-', '>', 't', 'o', 'd', 'i', 's', ':']) :
    a ∉ isBlockL iOpt := by
  intro hc
  rcases mem_isBlockL iOpt hid a hc with rfl | h | rfl | rfl | rfl | rfl | rfl | rfl | rfl | rfl | rfl | rfl
  · exact h1 rfl
  · rw [h2] at h; exact Bool.noConfusion h
  all_goals simp at h3

theorem notMem_mname (mname : List Char) (hmw : ∀ c ∈ mname, isWordChar c = true)
    (a : Char) (ha : isWordChar a = false) : a ∉ mname := by
  intro hc
  rw [hmw a hc] at ha
  exact Bool.noConfusion ha

theorem mem_spOpt (o : Option (List Char)) (c : Char) (hc : c ∈ spOpt o) : c = ' ' := by
  cases o <;> simp [spOpt] at hc
  exact hc

theorem blocks_head_sp (p : TodoistPriority) (dOpt iOpt : Option (List Char)) :
    ∀ c, (prioritySuffix p ++ dsBlockL dOpt ++ isBlockL iOpt).head? = some c → c = ' ' := by
  cases p <;> cases dOpt <;> cases iOpt <;> intro c hc <;>
    simp [prioritySuffix, dsBlockL, isBlockL, idOpenChars] at hc <;>
    exact hc.symm

theorem collectHashtags_single (A mname S : List Char)
    (hA : '#' ∉ A) (hS : '#' ∉ S) (hm1 : mname ≠ [])
    (hmw : ∀ c ∈ mname, isWordChar c = true)
    (hShead : ∀ c, S.head? = some c → isWordChar c = false) :
    collectHashtags (A ++ ('#' :: mname) ++ S) = [mname] := by
  have hsp : splitFirst tryHashtag (A ++ (('#' :: mname) ++ S)) =
      some (A, mname, S) := by
    rw [splitFirst_skip tryHashtag (fun c => c = '#') tryHashtag_trigger A _
      (fun c hc hcc => hA (hcc ▸ hc))]
    rw [splitFirst_head tryHashtag _ _ _ (tryHashtag_exact mname S hm1 hmw hShead)]
    simp
  have hnone : splitFirst tryHashtag S = none :=
    splitFirst_none_of_trigger tryHashtag (fun c => c = '#') tryHashtag_trigger S
      (fun c hc hcc => hS (hcc ▸ hc))
  unfold collectHashtags
  rw [show (A ++ ('#' :: mname) ++ S).length + 1 =
    Nat.succ (A ++ ('#' :: mname) ++ S).length from rfl]
  rw [show A ++ ('#' :: mname) ++ S = A ++ (('#' :: mname) ++ S) by simp]
  simp only [collectHashtagsGo, hsp]
  rw [collectHashtagsGo_nomatch _ _ hnone]

theorem replaceAll_marker (A mname B : List Char) (hA : '#' ∉ A) (hB : '#' ∉ B) :
    replaceAll (tryLitCI ('#' :: mname)) [] (A ++ ('#' :: mname) ++ B) = A ++ B := by
  have hsp : splitFirst (tryLitCI ('#' :: mname)) (A ++ (('#' :: mname) ++ B)) =
      some (A, '#' :: mname, B) := by
    rw [splitFirst_skip (tryLitCI ('#' :: mname)) (fun c => c = '#')
      (tryLitCI_hash_trigger mname) A _ (fun c hc hcc => hA (hcc ▸ hc))]
    rw [splitFirst_head _ _ _ _ (tryLitCI_exact ('#' :: mname) B)]
    simp
  have hnone : splitFirst (tryLitCI ('#' :: mname)) B = none :=
    splitFirst_none_of_trigger _ (fun c => c = '#') (tryLitCI_hash_trigger mname) B
      (fun c hc hcc => hB (hcc ▸ hc))
  unfold replaceAll
  rw [show (A ++ ('#' :: mname) ++ B).length + 1 =
    Nat.succ (A ++ ('#' :: mname) ++ B).length from rfl]
  rw [show A ++ ('#' :: mname) ++ B = A ++ (('#' :: mname) ++ B) by simp]
  rw [replaceAllGo_step _ _ _ _ _ _ _ hsp]
  rw [replaceAllGo_nomatch _ _ _ _ hnone]
  simp

theorem matchTaskLine_built (cb : Char) (hcb : cb = ' ' ∨ cb = 'x' ∨ cb = 'X')
    (C T : List Char) (hCne : C ≠ [])
    (hCh : ∀ c, C.head? = some c → isJsWs c = false)
    (hnlC : '\n' ∉ C) (hnlT : '\n' ∉ T) :
    matchTaskLine (['-', ' ', '[', cb, ']', ' '] ++ C ++ T) = some (cb, C ++ T) := by
  obtain ⟨ch, Ct, rfl⟩ : ∃ ch Ct, C = ch :: Ct := by
    cases C with
    | nil => exact absurd rfl hCne
    | cons a b => exact ⟨a, b, rfl⟩
  have hch : isJsWs ch = false := hCh ch rfl
  have hnl : ('\n' : Char) ∉ ch :: (Ct ++ T) := by
    intro hm
    rcases List.mem_cons.mp hm with rfl | hm2
    · exact hnlC (by simp)
    · rcases List.mem_append.mp hm2 with h | h
      · exact hnlC (by simp [h])
      · exact hnlT h
  show (if '[' = '[' ∧ (cb = ' ' ∨ cb = 'x' ∨ cb = 'X') ∧ ']' = ']' then
      let w2 := List.takeWhile isJsWs (' ' :: ch :: (Ct ++ T))
      let rest := List.dropWhile isJsWs (' ' :: ch :: (Ct ++ T))
      if w2 = [] then none
      else if rest.contains '\n' then none
      else some (cb, rest)
    else none) = some (cb, ch :: (Ct ++ T))
  rw [if_pos ⟨rfl, hcb, rfl⟩]
  have hw2 : List.takeWhile isJsWs (' ' :: ch :: (Ct ++ T)) = [' '] := by
    rw [List.takeWhile_cons_of_pos (by decide), List.takeWhile_cons_of_neg (by simp [hch])]
  have hrest : List.dropWhile isJsWs (' ' :: ch :: (Ct ++ T)) = ch :: (Ct ++ T) := by
    rw [List.dropWhile_cons_of_pos (by decide), List.dropWhile_cons_of_neg (by simp [hch])]
  simp only [hw2, hrest]
  rw [if_neg (by decide)]
  rw [contains_false_of_not_mem _ _ hnl]
  rfl

theorem get3_append (A : List Char) (a b c : Char) :
    (A ++ [a, b, c]).get? ((A ++ [a, b, c]).length - 3) = some a := by
  have hlen : (A ++ [a, b, c]).length - 3 = A.length := by simp
  rw [hlen, List.get?_append_right (Nat.le_refl _)]
  simp

theorem marker_in_taskBody (C mname : List Char) (p : TodoistPriority)
    (dOpt iOpt : Option (List Char)) :
    (scanFor (tryLitCI ('#' :: mname)) (taskBody C mname p dOpt iOpt)).isSome = true := by
  unfold taskBody
  rw [show C ++ [' '] ++ ('#' :: mname) ++ prioritySuffix p ++ dsBlockL dOpt ++ isBlockL iOpt
    = (C ++ [' ']) ++ (('#' :: mname) ++
        (prioritySuffix p ++ dsBlockL dOpt ++ isBlockL iOpt)) by simp]
  apply scanFor_isSome_suffix
  rw [scanFor_head _ _ _ _ (tryLitCI_exact ('#' :: mname) _)]
  rfl

theorem scan_id_taskBody (C mname : List Char) (p : TodoistPriority)
    (dOpt iOpt : Option (List Char))
    (hmw : ∀ c ∈ mname, isWordChar c = true)
    (hdd : ∀ d, dOpt = some d → validDate10 d = true)
    (hid : ∀ i, iOpt = some i → i ≠ [] ∧ ∀ c ∈ i, c.isDigit = true)
    (hClt : '<' ∉ C) :
    scanFor tryTodoistId (taskBody C mname p dOpt iOpt) = iOpt := by
  have hpre : ∀ c ∈ C ++ [' '] ++ ('#' :: mname) ++ prioritySuffix p ++ dsBlockL dOpt,
      ¬ (c = '<') := by
    intro c hc hcc
    subst hcc
    simp only [List.mem_append, List.mem_cons, List.mem_singleton] at hc
    rcases hc with (((hc | hc) | hc | hc) | hc) | hc
    · exact hClt hc
    · exact absurd hc (by decide)
    · exact absurd hc (by decide)
    · exact notMem_mname mname hmw '<' (by decide) hc
    · exact notMem_prioritySuffix p '<' (by decide) (by decide) (by decide) (by decide) hc
    · exact notMem_dsBlockL dOpt hdd '<' (by decide) (by decide) (by decide) (by decide) hc
  cases iOpt with
  | none =>
    rw [show taskBody C mname p dOpt none
      = C ++ [' '] ++ ('#' :: mname) ++ prioritySuffix p ++ dsBlockL dOpt from by
        simp [taskBody, isBlockL]]
    exact scanFor_none_of_trigger tryTodoistId (fun c => c = '<') tryTodoistId_trigger _ hpre
  | some i =>
    obtain ⟨hne, hdig⟩ := hid i rfl
    rw [show taskBody C mname p dOpt (some i)
      = ((C ++ [' '] ++ ('#' :: mname) ++ prioritySuffix p ++ dsBlockL dOpt) ++ [' ']) ++
        (idOpenChars ++ ([' '] ++ (idLabelChars ++ (i ++ ([' '] ++ idCloseChars))))) from by
        simp [taskBody, isBlockL]]
    rw [scanFor_skip tryTodoistId (fun c => c = '<') tryTodoistId_trigger _ _ ?hA]
    case hA =>
      intro c hc hcc
      rcases List.mem_append.mp hc with h | h
      · exact hpre c h hcc
      · subst hcc
        simp at h
    rw [scanFor_head _ _ _ _ (tryTodoistId_exact i hne hdig)]

theorem extractDueDate_taskBody (C mname : List Char) (p : TodoistPriority)
    (dOpt iOpt : Option (List Char))
    (hmw : ∀ c ∈ mname, isWordChar c = true)
    (hdd : ∀ d, dOpt = some d → validDate10 d = true)
    (hid : ∀ i, iOpt = some i → i ≠ [] ∧ ∀ c ∈ i, c.isDigit = true)
    (hCdue : dueGlyph ∉ C) (hCsched : schedGlyph ∉ C)
    (htd : splitFirst tryTextDue C = none) :
    extractDueDate (taskBody C mname p dOpt iOpt) = dOpt := by
  cases dOpt with
  | some d =>
    have hv := hdd d rfl
    have hscan : scanFor (tryEmojiDate dueGlyph) (taskBody C mname p (some d) iOpt)
        = some d := by
      rw [show taskBody C mname p (some d) iOpt
        = ((C ++ [' '] ++ ('#' :: mname) ++ prioritySuffix p) ++ [' ']) ++
          (dueGlyph :: ' ' :: (d ++ isBlockL iOpt)) from by
          simp [taskBody, dsBlockL]]
      rw [scanFor_skip (tryEmojiDate dueGlyph) (fun c => c = dueGlyph)
        (tryEmojiDate_trigger dueGlyph) _ _ ?hpre]
      case hpre =>
        intro c hc hcc
        subst hcc
        simp only [List.mem_append, List.mem_cons, List.mem_singleton] at hc
        rcases hc with (((hc | hc) | hc | hc) | hc) | hc
        · exact hCdue hc
        · exact absurd hc (by decide)
        · exact absurd hc (by decide)
        · exact notMem_mname mname hmw dueGlyph (by decide) hc
        · exact notMem_prioritySuffix p dueGlyph (by decide) (by decide) (by decide)
            (by decide) hc
        · exact absurd hc (by decide)
      rw [scanFor_head _ _ _ _ (tryEmojiDate_exact dueGlyph d (isBlockL iOpt) hv)]
    unfold extractDueDate
    rw [hscan]
  | none =>
    have hglyph : ∀ g : Char, g ∉ C → g ≠ ' ' → g ≠ '#' → isWordChar g = false →
        g ∉ prioritySuffix p → g.isDigit = false →
        g ∉ ['<', '!', '-', '>', 't', 'o', 'd', 'i', 's', ':'] →
        scanFor (tryEmojiDate g) (taskBody C mname p none iOpt) = none := by
      intro g hg1 hg2 hg3 hg4 hg5 hg6 hg7
      apply scanFor_none_of_trigger (tryEmojiDate g) (fun c => c = g)
        (tryEmojiDate_trigger g)
      intro c hc hcc
      subst hcc
      unfold taskBody at hc
      rcases List.mem_append.mp hc with h | h
      · rcases List.mem_append.mp h with h | h
        · rcases List.mem_append.mp h with h | h
          · rcases List.mem_append.mp h with h | h
            · rcases List.mem_append.mp h with h | h
              · exact hg1 h
              · exact hg2 (by simpa using h)
            · rcases List.mem_cons.mp h with h | h
              · exact hg3 h
              · exact notMem_mname mname hmw c hg4 h
          · exact hg5 h
        · simp [dsBlockL] at h
      · exact notMem_isBlockL iOpt hid c hg2 hg6 hg7 h
    have h1 : scanFor (tryEmojiDate dueGlyph) (taskBody C mname p none iOpt) = none :=
      hglyph dueGlyph hCdue (by decide) (by decide) (by decide)
        (notMem_prioritySuffix p dueGlyph (by decide) (by decide) (by decide) (by decide))
        (by decide) (by decide)
    have h2 : scanFor (tryEmojiDate schedGlyph) (taskBody C mname p none iOpt) = none :=
      hglyph schedGlyph hCsched (by decide) (by decide) (by decide)
        (notMem_prioritySuffix p schedGlyph (by decide) (by decide) (by decide) (by decide))
        (by decide) (by decide)
    have h3 : scanFor tryTextDue (taskBody C mname p none iOpt) = none := by
      apply scanFor_eq_none
      rw [show taskBody C mname p none iOpt
        = C ++ (' ' :: (('#' :: mname) ++ (prioritySuffix p ++ isBlockL iOpt))) from by
          simp [taskBody, dsBlockL]]
      apply splitFirst_textDue_append C ' ' _ htd textDuePreds_reject_space ?hbody
      case hbody =>
        cases iOpt with
        | none =>
          apply splitFirst_textDue_no_colon
          intro hm
          rcases List.mem_cons.mp hm with h | h
          · exact absurd h (by decide)
          · rcases List.mem_append.mp h with h | h
            · rcases List.mem_cons.mp h with h | h
              · exact absurd h (by decide)
              · exact notMem_mname mname hmw ':' (by decide) h
            · rcases List.mem_append.mp h with h | h
              · exact notMem_prioritySuffix p ':' (by decide) (by decide) (by decide)
                  (by decide) h
              · simp [isBlockL] at h
        | some i =>
          obtain ⟨hne, hdig⟩ := hid i rfl
          rw [show (' ' :: (('#' :: mname) ++ (prioritySuffix p ++ isBlockL (some i))))
            = ((' ' :: '#' :: (mname ++ (prioritySuffix p ++
                ([' '] ++ idOpenChars ++ [' '] ++ ['t', 'o', 'd', 'o', 'i', 's', 't']))))
              ++ ['-', 'i', 'd']) ++
              ':' :: (i ++ ([' '] ++ idCloseChars)) from by
            simp [isBlockL, idOpenChars, idLabelChars, idCloseChars]]
          apply splitFirst_textDue_colon_mid
          · intro hm
            rcases List.mem_append.mp hm with h | h
            · rcases List.mem_cons.mp h with h | h
              · exact absurd h (by decide)
              · rcases List.mem_cons.mp h with h | h
                · exact absurd h (by decide)
                · rcases List.mem_append.mp h with h | h
                  · exact notMem_mname mname hmw ':' (by decide) h
                  · rcases List.mem_append.mp h with h | h
                    · exact notMem_prioritySuffix p ':' (by decide) (by decide)
                        (by decide) (by decide) h
                    · exact absurd h (by decide)
            · exact absurd h (by decide)
          · intro hm
            rcases List.mem_append.mp hm with h | h
            · have := hdig ':' h
              exact absurd this (by decide)
            · exact absurd h (by decide)
          · simp
            omega
          · intro c hcq
            rw [get3_append] at hcq
            obtain rfl : '-' = c := Option.some.inj hcq
            exact ⟨by decide, by decide⟩
    unfold extractDueDate
    rw [h1, h2, h3]

theorem extractPriority_taskBody (C mname : List Char) (p : TodoistPriority)
    (dOpt iOpt : Option (List Char))
    (hmw : ∀ c ∈ mname, isWordChar c = true)
    (hdd : ∀ d, dOpt = some d → validDate10 d = true)
    (hid : ∀ i, iOpt = some i → i ≠ [] ∧ ∀ c ∈ i, c.isDigit = true)
    (hChigh : highGlyph ∉ C) (hCmed : medGlyph ∉ C) (hClow : lowGlyph ∉ C) :
    extractPriority (taskBody C mname p dOpt iOpt) = p := by
  have habs : ∀ g : Char, g ∉ C → g ≠ ' ' → g ≠ '#' → isWordChar g = false →
      g ∉ prioritySuffix p → g ≠ dueGlyph → g.isDigit = false →
      g ∉ ['<', '!', '-', '>', 't', 'o', 'd', 'i', 's', ':'] →
      g ∉ taskBody C mname p dOpt iOpt := by
    intro g hg1 hg2 hg3 hg4 hg5 hg6 hg7 hg8 hc
    unfold taskBody at hc
    rcases List.mem_append.mp hc with h | h
    · rcases List.mem_append.mp h with h | h
      · rcases List.mem_append.mp h with h | h
        · rcases List.mem_append.mp h with h | h
          · rcases List.mem_append.mp h with h | h
            · exact hg1 h
            · exact hg2 (by simpa using h)
          · rcases List.mem_cons.mp h with h | h
            · exact hg3 h
            · exact notMem_mname mname hmw g hg4 h
        · exact hg5 h
      · have hdig : g.isDigit = false := hg7
        have := mem_dsBlockL dOpt hdd g h
        rcases this with rfl | rfl | hd | rfl
        · exact hg2 rfl
        · exact hg6 rfl
        · rw [hg7] at hd
          exact Bool.noConfusion hd
        · simp at hg8
    · exact notMem_isBlockL iOpt hid g hg2 hg7 hg8 h
  have hmemPS : ∀ g : Char, g ∈ prioritySuffix p → g ∈ taskBody C mname p dOpt iOpt := by
    intro g hg
    unfold taskBody
    simp only [List.mem_append]
    tauto
  cases p with
  | NONE =>
    have hh := habs highGlyph hChigh (by decide) (by decide) (by decide)
      (by simp [prioritySuffix]) (by decide) (by decide) (by decide)
    have hm := habs medGlyph hCmed (by decide) (by decide) (by decide)
      (by simp [prioritySuffix]) (by decide) (by decide) (by decide)
    have hl := habs lowGlyph hClow (by decide) (by decide) (by decide)
      (by simp [prioritySuffix]) (by decide) (by decide) (by decide)
    unfold extractPriority
    rw [contains_false_of_not_mem _ _ hh, contains_false_of_not_mem _ _ hm,
      contains_false_of_not_mem _ _ hl]
    rfl
  | HIGH =>
    have hh : highGlyph ∈ taskBody C mname TodoistPriority.HIGH dOpt iOpt :=
      hmemPS highGlyph (by simp [prioritySuffix])
    unfold extractPriority
    rw [contains_true_of_mem _ _ hh]
    rfl
  | MEDIUM =>
    have hh := habs highGlyph hChigh (by decide) (by decide) (by decide)
      (by decide) (by decide) (by decide) (by decide)
    have hm : medGlyph ∈ taskBody C mname TodoistPriority.MEDIUM dOpt iOpt :=
      hmemPS medGlyph (by simp [prioritySuffix])
    unfold extractPriority
    rw [contains_false_of_not_mem _ _ hh, contains_true_of_mem _ _ hm]
    rfl
  | LOW =>
    have hh := habs highGlyph hChigh (by decide) (by decide) (by decide)
      (by decide) (by decide) (by decide) (by decide)
    have hm := habs medGlyph hCmed (by decide) (by decide) (by decide)
      (by decide) (by decide) (by decide) (by decide)
    have hl : lowGlyph ∈ taskBody C mname TodoistPriority.LOW dOpt iOpt :=
      hmemPS lowGlyph (by simp [prioritySuffix])
    unfold extractPriority
    rw [contains_false_of_not_mem _ _ hh, contains_false_of_not_mem _ _ hm,
      contains_true_of_mem _ _ hl]
    rfl

theorem extractLabels_taskBody (C mname : List Char) (p : TodoistPriority)
    (dOpt iOpt : Option (List Char)) (hm1 : mname ≠ [])
    (hmw : ∀ c ∈ mname, isWordChar c = true)
    (hdd : ∀ d, dOpt = some d → validDate10 d = true)
    (hid : ∀ i, iOpt = some i → i ≠ [] ∧ ∀ c ∈ i, c.isDigit = true)
    (hCsharp : '#' ∉ C) :
    extractLabels (taskBody C mname p dOpt iOpt) ('#' :: mname) = [] := by
  have hcol : collectHashtags (taskBody C mname p dOpt iOpt) = [mname] := by
    rw [show taskBody C mname p dOpt iOpt
      = (C ++ [' ']) ++ ('#' :: mname) ++
        (prioritySuffix p ++ dsBlockL dOpt ++ isBlockL iOpt) from by
        simp [taskBody]]
    apply collectHashtags_single _ _ _ ?hA ?hS hm1 hmw ?hhead
    case hA =>
      intro hm
      rcases List.mem_append.mp hm with h | h
      · exact hCsharp h
      · exact absurd h (by decide)
    case hS =>
      intro hm
      rcases List.mem_append.mp hm with h | h
      · rcases List.mem_append.mp h with h | h
        · exact notMem_prioritySuffix p '#' (by decide) (by decide) (by decide)
            (by decide) h
        · exact notMem_dsBlockL dOpt hdd '#' (by decide) (by decide) (by decide)
            (by decide) h
      · exact notMem_isBlockL iOpt hid '#' (by decide) (by decide) (by decide) h
    case hhead =>
      intro c hc
      rw [blocks_head_sp p dOpt iOpt c hc]
      decide
  unfold extractLabels
  rw [hcol]
  simp [stripLeadingHash]

theorem cleanTaskContent_taskBody (C mname : List Char) (p : TodoistPriority)
    (dOpt iOpt : Option (List Char))
    (hmw : ∀ c ∈ mname, isWordChar c = true)
    (hdd : ∀ d, dOpt = some d → validDate10 d = true)
    (hid : ∀ i, iOpt = some i → i ≠ [] ∧ ∀ c ∈ i, c.isDigit = true)
    (hCsharp : '#' ∉ C) (hClt : '<' ∉ C) (hCdue : dueGlyph ∉ C)
    (hCsched : schedGlyph ∉ C) (hCstart : startGlyph ∉ C) (hCdone : doneGlyph ∉ C)
    (hChigh : highGlyph ∉ C) (hCmed : medGlyph ∉ C) (hClow : lowGlyph ∉ C)
    (htd : splitFirst tryTextDue C = none) (hnorm : normalizeWs C = C) :
    cleanTaskContent (taskBody C mname p dOpt iOpt) ('#' :: mname) = C := by
  have hstay : ∀ (g : Char) (L : List Char), g ∉ L →
      replaceFirst (tryGlyph g) [] L = L := by
    intro g L hg
    apply replaceFirst_none_of_trigger (tryGlyph g) (fun c => c = g) (tryGlyph_trigger g)
    intro c hc hcc
    exact hg (hcc ▸ hc)
  have hstayE : ∀ (g : Char) (L : List Char), g ∉ L →
      replaceFirst (tryEmojiDate g) [] L = L := by
    intro g L hg
    apply replaceFirst_none_of_trigger (tryEmojiDate g) (fun c => c = g)
      (tryEmojiDate_trigger g)
    intro c hc hcc
    exact hg (hcc ▸ hc)
  have e1 : replaceFirst tryTodoistId [] (taskBody C mname p dOpt iOpt)
      = (C ++ [' ']) ++ (('#' :: mname) ++
          (prioritySuffix p ++ dsBlockL dOpt ++ spOpt iOpt)) := by
    have hpre : ∀ c ∈ C ++ [' '] ++ ('#' :: mname) ++ prioritySuffix p ++ dsBlockL dOpt,
        ¬ (c = '<') := by
      intro c hc hcc
      subst hcc
      simp only [List.mem_append, List.mem_cons, List.mem_singleton] at hc
      rcases hc with (((hc | hc) | hc | hc) | hc) | hc
      · exact hClt hc
      · exact absurd hc (by decide)
      · exact absurd hc (by decide)
      · exact notMem_mname mname hmw '<' (by decide) hc
      · exact notMem_prioritySuffix p '<' (by decide) (by decide) (by decide) (by decide) hc
      · exact notMem_dsBlockL dOpt hdd '<' (by decide) (by decide) (by decide) (by decide) hc
    cases iOpt with
    | none =>
      rw [show taskBody C mname p dOpt none
        = C ++ [' '] ++ ('#' :: mname) ++ prioritySuffix p ++ dsBlockL dOpt from by
          simp [taskBody, isBlockL]]
      rw [replaceFirst_none_of_trigger tryTodoistId (fun c => c = '<')
        tryTodoistId_trigger [] _ hpre]
      simp [spOpt]
    | some i =>
      obtain ⟨hne, hdig⟩ := hid i rfl
      rw [show taskBody C mname p dOpt (some i)
        = ((C ++ [' '] ++ ('#' :: mname) ++ prioritySuffix p ++ dsBlockL dOpt) ++ [' ']) ++
          (idOpenChars ++ ([' '] ++ (idLabelChars ++ (i ++ ([' '] ++ idCloseChars))))) from by
          simp [taskBody, isBlockL]]
      rw [replaceFirst_skip tryTodoistId (fun c => c = '<') tryTodoistId_trigger [] _ _ ?hsk]
      case hsk =>
        intro c hc hcc
        rcases List.mem_append.mp hc with h | h
        · exact hpre c h hcc
        · subst hcc
          simp at h
      rw [replaceFirst_head _ _ _ _ _ (tryTodoistId_exact i hne hdig)]
      simp [spOpt]
  have e2 : replaceAll (tryLitCI ('#' :: mname)) []
      ((C ++ [' ']) ++ (('#' :: mname) ++
        (prioritySuffix p ++ dsBlockL dOpt ++ spOpt iOpt)))
      = (C ++ [' ']) ++ (prioritySuffix p ++ dsBlockL dOpt ++ spOpt iOpt) := by
    rw [show (C ++ [' ']) ++ (('#' :: mname) ++
        (prioritySuffix p ++ dsBlockL dOpt ++ spOpt iOpt))
      = (C ++ [' ']) ++ ('#' :: mname) ++
        (prioritySuffix p ++ dsBlockL dOpt ++ spOpt iOpt) from by simp]
    apply replaceAll_marker
    · intro hm
      rcases List.mem_append.mp hm with h | h
      · exact hCsharp h
      · exact absurd h (by decide)
    · intro hm
      rcases List.mem_append.mp hm with h | h
      · rcases List.mem_append.mp h with h | h
        · exact notMem_prioritySuffix p '#' (by decide) (by decide) (by decide)
            (by decide) h
        · exact notMem_dsBlockL dOpt hdd '#' (by decide) (by decide) (by decide)
            (by decide) h
      · exact absurd (mem_spOpt iOpt '#' h) (by decide)
  have e3 : replaceFirst (tryEmojiDate dueGlyph) []
      ((C ++ [' ']) ++ (prioritySuffix p ++ dsBlockL dOpt ++ spOpt iOpt))
      = (C ++ [' ']) ++ (prioritySuffix p ++ spOpt dOpt ++ spOpt iOpt) := by
    cases dOpt with
    | none =>
      rw [hstayE dueGlyph _ ?hnotin]
      case hnotin =>
        intro hm
        rcases List.mem_append.mp hm with h | h
        · rcases List.mem_append.mp h with h | h
          · exact hCdue h
          · exact absurd h (by decide)
        · rcases List.mem_append.mp h with h | h
          · rcases List.mem_append.mp h with h | h
            · exact absurd (mem_prioritySuffix p dueGlyph h) (by decide)
            · simp [dsBlockL] at h
          · exact absurd (mem_spOpt iOpt dueGlyph h) (by decide)
      simp [dsBlockL, spOpt]
    | some d =>
      have hv := hdd d rfl
      rw [show (C ++ [' ']) ++ (prioritySuffix p ++ dsBlockL (some d) ++ spOpt iOpt)
        = (((C ++ [' ']) ++ prioritySuffix p) ++ [' ']) ++
          (dueGlyph :: ' ' :: (d ++ spOpt iOpt)) from by simp [dsBlockL]]
      rw [replaceFirst_skip (tryEmojiDate dueGlyph) (fun c => c = dueGlyph)
        (tryEmojiDate_trigger dueGlyph) [] _ _ ?hsk3]
      case hsk3 =>
        intro c hc hcc
        subst hcc
        rcases List.mem_append.mp hc with h | h
        · rcases List.mem_append.mp h with h | h
          · rcases List.mem_append.mp h with h | h
            · exact hCdue h
            · exact absurd h (by decide)
          · exact absurd (mem_prioritySuffix p dueGlyph h) (by decide)
        · exact absurd h (by decide)
      rw [replaceFirst_head _ _ _ _ _ (tryEmojiDate_exact dueGlyph d (spOpt iOpt) hv)]
      simp [spOpt]
  have hnotX3 : ∀ g : Char, g ∉ C → g ≠ ' ' → g ∉ prioritySuffix p →
      g ∉ (C ++ [' ']) ++ (prioritySuffix p ++ spOpt dOpt ++ spOpt iOpt) := by
    intro g h1 h2 h3 hm
    rcases List.mem_append.mp hm with h | h
    · rcases List.mem_append.mp h with h | h
      · exact h1 h
      · exact h2 (by simpa using h)
    · rcases List.mem_append.mp h with h | h
      · rcases List.mem_append.mp h with h | h
        · exact h3 h
        · exact h2 (mem_spOpt dOpt g h)
      · exact h2 (mem_spOpt iOpt g h)
  have e4 := hstayE schedGlyph _ (hnotX3 schedGlyph hCsched (by decide)
    (notMem_prioritySuffix p schedGlyph (by decide) (by decide) (by decide) (by decide)))
  have e5 := hstayE startGlyph _ (hnotX3 startGlyph hCstart (by decide)
    (notMem_prioritySuffix p startGlyph (by decide) (by decide) (by decide) (by decide)))
  have e6 := hstayE doneGlyph _ (hnotX3 doneGlyph hCdone (by decide)
    (notMem_prioritySuffix p doneGlyph (by decide) (by decide) (by decide) (by decide)))
  have key : ∃ S : List Char, (∀ c ∈ S, c = ' ') ∧
      replaceFirst (tryGlyph lowGlyph) [] (replaceFirst (tryGlyph medGlyph) []
        (replaceFirst (tryGlyph highGlyph) []
          ((C ++ [' ']) ++ (prioritySuffix p ++ spOpt dOpt ++ spOpt iOpt))))
      = C ++ (' ' :: S) := by
    have hSsp : ∀ c ∈ spOpt dOpt ++ spOpt iOpt, c = ' ' := by
      intro c hc
      rcases List.mem_append.mp hc with h | h
      · exact mem_spOpt dOpt c h
      · exact mem_spOpt iOpt c h
    have hnotSp : ∀ g : Char, g ≠ ' ' →
        g ∉ (C ++ [' ', ' ']) ++ (spOpt dOpt ++ spOpt iOpt) → True := fun _ _ _ => trivial
    cases p with
    | NONE =>
      refine ⟨spOpt dOpt ++ spOpt iOpt, hSsp, ?_⟩
      rw [hstay highGlyph _ (hnotX3 highGlyph hChigh (by decide) (by decide))]
      rw [hstay medGlyph _ (hnotX3 medGlyph hCmed (by decide) (by decide))]
      rw [hstay lowGlyph _ (hnotX3 lowGlyph hClow (by decide) (by decide))]
      simp [prioritySuffix]
    | HIGH =>
      refine ⟨' ' :: (spOpt dOpt ++ spOpt iOpt), ?_, ?_⟩
      · intro c hc
        rcases List.mem_cons.mp hc with rfl | h
        · rfl
        · exact hSsp c h
      · rw [show (C ++ [' ']) ++ (prioritySuffix TodoistPriority.HIGH ++ spOpt dOpt ++
            spOpt iOpt)
          = (C ++ [' ', ' ']) ++ (highGlyph :: (spOpt dOpt ++ spOpt iOpt)) from by
            simp [prioritySuffix]]
        rw [replaceFirst_skip (tryGlyph highGlyph) (fun c => c = highGlyph)
          (tryGlyph_trigger highGlyph) [] _ _ ?hskH]
        case hskH =>
          intro c hc hcc
          rcases List.mem_append.mp hc with h | h
          · exact hChigh (hcc ▸ h)
          · have h2 : c = ' ' := by simpa using h
            exact absurd (hcc.symm.trans h2) (by decide)
        rw [replaceFirst_head _ _ _ _ _ (tryGlyph_head highGlyph _)]
        rw [hstay medGlyph _ ?hnm]
        case hnm =>
          intro hm
          rcases List.mem_append.mp hm with h | h
          · rcases List.mem_append.mp h with h | h
            · exact hCmed h
            · exact absurd (by simpa using h : medGlyph = ' ') (by decide)
          · rcases List.mem_append.mp h with h | h
            · simp at h
            · exact absurd (hSsp medGlyph h) (by decide)
        rw [hstay lowGlyph _ ?hnl]
        case hnl =>
          intro hm
          rcases List.mem_append.mp hm with h | h
          · rcases List.mem_append.mp h with h | h
            · exact hClow h
            · exact absurd (by simpa using h : lowGlyph = ' ') (by decide)
          · rcases List.mem_append.mp h with h | h
            · simp at h
            · exact absurd (hSsp lowGlyph h) (by decide)
        simp
    | MEDIUM =>
      refine ⟨' ' :: (spOpt dOpt ++ spOpt iOpt), ?_, ?_⟩
      · intro c hc
        rcases List.mem_cons.mp hc with rfl | h
        · rfl
        · exact hSsp c h
      · rw [hstay highGlyph _ (hnotX3 highGlyph hChigh (by decide) (by decide))]
        rw [show (C ++ [' ']) ++ (prioritySuffix TodoistPriority.MEDIUM ++ spOpt dOpt ++
            spOpt iOpt)
          = (C ++ [' ', ' ']) ++ (medGlyph :: (spOpt dOpt ++ spOpt iOpt)) from by
            simp [prioritySuffix]]
        rw [replaceFirst_skip (tryGlyph medGlyph) (fun c => c = medGlyph)
          (tryGlyph_trigger medGlyph) [] _ _ ?hskM]
        case hskM =>
          intro c hc hcc
          rcases List.mem_append.mp hc with h | h
          · exact hCmed (hcc ▸ h)
          · have h2 : c = ' ' := by simpa using h
            exact absurd (hcc.symm.trans h2) (by decide)
        rw [replaceFirst_head _ _ _ _ _ (tryGlyph_head medGlyph _)]
        rw [hstay lowGlyph _ ?hnl2]
        case hnl2 =>
          intro hm
          rcases List.mem_append.mp hm with h | h
          · rcases List.mem_append.mp h with h | h
            · exact hClow h
            · exact absurd (by simpa using h : lowGlyph = ' ') (by decide)
          · rcases List.mem_append.mp h with h | h
            · simp at h
            · exact absurd (hSsp lowGlyph h) (by decide)
        simp
    | LOW =>
      refine ⟨' ' :: (spOpt dOpt ++ spOpt iOpt), ?_, ?_⟩
      · intro c hc
        rcases List.mem_cons.mp hc with rfl | h
        · rfl
        · exact hSsp c h
      · rw [hstay highGlyph _ (hnotX3 highGlyph hChigh (by decide) (by decide))]
        rw [hstay medGlyph _ (hnotX3 medGlyph hCmed (by decide) (by decide))]
        rw [show (C ++ [' ']) ++ (prioritySuffix TodoistPriority.LOW ++ spOpt dOpt ++
            spOpt iOpt)
          = (C ++ [' ', ' ']) ++ (lowGlyph :: (spOpt dOpt ++ spOpt iOpt)) from by
            simp [prioritySuffix]]
        rw [replaceFirst_skip (tryGlyph lowGlyph) (fun c => c = lowGlyph)
          (tryGlyph_trigger lowGlyph) [] _ _ ?hskL]
        case hskL =>
          intro c hc hcc
          rcases List.mem_append.mp hc with h | h
          · exact hClow (hcc ▸ h)
          · have h2 : c = ' ' := by simpa using h
            exact absurd (hcc.symm.trans h2) (by decide)
        rw [replaceFirst_head _ _ _ _ _ (tryGlyph_head lowGlyph _)]
        simp
  obtain ⟨S, hSmem, hS9⟩ := key
  have e10 : replaceFirst tryTextDue [] (C ++ (' ' :: S)) = C ++ (' ' :: S) := by
    apply replaceFirst_nomatch
    apply splitFirst_textDue_append C ' ' S htd textDuePreds_reject_space
    apply splitFirst_textDue_allws
    intro c hc
    rcases List.mem_cons.mp hc with rfl | h
    · rfl
    · exact hSmem c h
  have e11 : normalizeWs (C ++ (' ' :: S)) = C := by
    rw [normalizeWs_append_ws C (' ' :: S) ?hws, hnorm]
    case hws =>
      intro c hc
      rcases List.mem_cons.mp hc with rfl | h
      · decide
      · rw [hSmem c h]
        decide
  show normalizeWs
      (replaceFirst tryTextDue []
        (replaceFirst (tryGlyph lowGlyph) []
          (replaceFirst (tryGlyph medGlyph) []
            (replaceFirst (tryGlyph highGlyph) []
              (replaceFirst (tryEmojiDate doneGlyph) []
                (replaceFirst (tryEmojiDate startGlyph) []
                  (replaceFirst (tryEmojiDate schedGlyph) []
                    (replaceFirst (tryEmojiDate dueGlyph) []
                      (replaceAll (tryLitCI ('#' :: mname)) []
                        (replaceFirst tryTodoistId []
                          (taskBody C mname p dOpt iOpt))))))))))) = C
  rw [e1, e2, e3, e4, e5, e6, hS9, e10, e11]

theorem buildTaskLineL_eq (t : ParsedObsidianTask) (mname : List Char)
    (hlab : t.labels = []) :
    buildTaskLineL t ('#' :: mname)
      = ['-', ' ', '[', if t.isCompleted then 'x' else ' ', ']', ' '] ++
        t.content.data ++
        ([' '] ++ (('#' :: mname) ++ (prioritySuffix t.priority ++
          (dsBlockL (t.dueDate.map String.data) ++
           isBlockL (t.todoistId.map String.data))))) := by
  unfold buildTaskLineL
  rw [hlab]
  cases t.dueDate <;> cases t.todoistId <;>
    simp [dsBlockL, isBlockL]

/-- C1 (amended): for every task whose fields are well formed -- a nonempty
normalized content free of newlines, hashes, metadata glyphs, identifier
comments and textual due dates, an empty label list, a sync-tag name made of
word characters, a dddd-dd-dd due date when present and a nonempty numeric
identifier when present -- parsing the line built by `buildTaskLine` with
the same sync tag yields a task with identical content, isCompleted,
todoistId, dueDate, priority and labels.  (Tasks with labels do not round
trip: see the counterexample.) -/
theorem parse_build_roundtrip
    (t : ParsedObsidianTask) (mname : List Char) (n : Nat) (fp : String) (mt : Nat)
    (hm1 : mname ≠ []) (hmw : ∀ c ∈ mname, isWordChar c = true)
    (hlab : t.labels = [])
    (hCne : t.content.data ≠ [])
    (hCh : ∀ c, t.content.data.head? = some c → isJsWs c = false)
    (hnorm : normalizeWs t.content.data = t.content.data)
    (hCnl : '\n' ∉ t.content.data)
    (hCsharp : '#' ∉ t.content.data) (hClt : '<' ∉ t.content.data)
    (hCdue : dueGlyph ∉ t.content.data) (hCsched : schedGlyph ∉ t.content.data)
    (hCstart : startGlyph ∉ t.content.data) (hCdone : doneGlyph ∉ t.content.data)
    (hChigh : highGlyph ∉ t.content.data) (hCmed : medGlyph ∉ t.content.data)
    (hClow : lowGlyph ∉ t.content.data)
    (htd : splitFirst tryTextDue t.content.data = none)
    (hdd : ∀ d, t.dueDate = some d → validDate10 d.data = true)
    (hid : ∀ i, t.todoistId = some i → i.data ≠ [] ∧ ∀ c ∈ i.data, c.isDigit = true) :
    ∃ t2, parseTaskLine (buildTaskLine t (String.mk ('#' :: mname))) n fp
        (String.mk ('#' :: mname)) mt = some t2 ∧
      t2.content = t.content ∧ t2.isCompleted = t.isCompleted ∧
      t2.todoistId = t.todoistId ∧ t2.dueDate = t.dueDate ∧
      t2.priority = t.priority ∧ t2.labels = t.labels := by
  have hdd2 : ∀ d, t.dueDate.map String.data = some d → validDate10 d = true := by
    intro d h
    cases hdu : t.dueDate with
    | none => rw [hdu] at h; simp at h
    | some d0 =>
      rw [hdu] at h
      simp only [Option.map_some', Option.some_inj] at h
      rw [← h]
      exact hdd d0 hdu
  have hid2 : ∀ i, t.todoistId.map String.data = some i →
      i ≠ [] ∧ ∀ c ∈ i, c.isDigit = true := by
    intro i h
    cases hti : t.todoistId with
    | none => rw [hti] at h; simp at h
    | some i0 =>
      rw [hti] at h
      simp only [Option.map_some', Option.some_inj] at h
      rw [← h]
      exact hid i0 hti
  have hcb : (if t.isCompleted then 'x' else ' ') = ' ' ∨
      (if t.isCompleted then 'x' else ' ') = 'x' ∨
      (if t.isCompleted then 'x' else ' ') = 'X' := by
    cases t.isCompleted <;> simp
  have hnlT : ('\n' : Char) ∉
      [' '] ++ (('#' :: mname) ++ (prioritySuffix t.priority ++
        (dsBlockL (t.dueDate.map String.data) ++
         isBlockL (t.todoistId.map String.data)))) := by
    intro hm
    rcases List.mem_append.mp hm with h | h
    · exact absurd h (by decide)
    · rcases List.mem_cons.mp h with h | h
      · exact absurd h (by decide)
      · rcases List.mem_append.mp h with h | h
        · exact notMem_mname mname hmw '\n' (by decide) h
        · rcases List.mem_append.mp h with h | h
          · exact notMem_prioritySuffix t.priority '\n' (by decide) (by decide)
              (by decide) (by decide) h
          · rcases List.mem_append.mp h with h | h
            · exact notMem_dsBlockL _ hdd2 '\n' (by decide) (by decide) (by decide)
                (by decide) h
            · exact notMem_isBlockL _ hid2 '\n' (by decide) (by decide) (by decide) h
  have hmt : matchTaskLine (buildTaskLineL t ('#' :: mname))
      = some (if t.isCompleted then 'x' else ' ',
          taskBody t.content.data mname t.priority (t.dueDate.map String.data)
            (t.todoistId.map String.data)) := by
    rw [buildTaskLineL_eq t mname hlab]
    rw [matchTaskLine_built (if t.isCompleted then 'x' else ' ') hcb t.content.data _
      hCne hCh hCnl hnlT]
    rw [show t.content.data ++
        ([' '] ++ (('#' :: mname) ++ (prioritySuffix t.priority ++
          (dsBlockL (t.dueDate.map String.data) ++
           isBlockL (t.todoistId.map String.data)))))
      = taskBody t.content.data mname t.priority (t.dueDate.map String.data)
          (t.todoistId.map String.data) from by simp [taskBody]]
  have hparse : parseTaskLineL (buildTaskLineL t ('#' :: mname)) n fp ('#' :: mname) mt
      = some
        { originalLine := String.mk (buildTaskLineL t ('#' :: mname))
          lineNumber := n
          filePath := fp
          content := String.mk (cleanTaskContent
            (taskBody t.content.data mname t.priority (t.dueDate.map String.data)
              (t.todoistId.map String.data)) ('#' :: mname))
          isCompleted := (if t.isCompleted then 'x' else ' ').toLower == 'x'
          todoistId := (scanFor tryTodoistId
            (taskBody t.content.data mname t.priority (t.dueDate.map String.data)
              (t.todoistId.map String.data))).map String.mk
          dueDate := (extractDueDate
            (taskBody t.content.data mname t.priority (t.dueDate.map String.data)
              (t.todoistId.map String.data))).map String.mk
          priority := extractPriority
            (taskBody t.content.data mname t.priority (t.dueDate.map String.data)
              (t.todoistId.map String.data))
          labels := (extractLabels
            (taskBody t.content.data mname t.priority (t.dueDate.map String.data)
              (t.todoistId.map String.data)) ('#' :: mname)).map String.mk
          description := ""
          lastModified := mt } := by
    unfold parseTaskLineL
    rw [hmt]
    show (if (scanFor (tryLitCI ('#' :: mname))
        (taskBody t.content.data mname t.priority (t.dueDate.map String.data)
          (t.todoistId.map String.data))).isSome = true
      then _ else none) = _
    rw [marker_in_taskBody t.content.data mname t.priority (t.dueDate.map String.data)
      (t.todoistId.map String.data)]
    rfl
  refine ⟨_, hparse, ?_, ?_, ?_, ?_, ?_, ?_⟩
  · show String.mk (cleanTaskContent _ ('#' :: mname)) = t.content
    rw [cleanTaskContent_taskBody t.content.data mname t.priority
      (t.dueDate.map String.data) (t.todoistId.map String.data) hmw hdd2 hid2
      hCsharp hClt hCdue hCsched hCstart hCdone hChigh hCmed hClow htd hnorm]
  · show ((if t.isCompleted then 'x' else ' ').toLower == 'x') = t.isCompleted
    cases t.isCompleted <;> decide
  · show (scanFor tryTodoistId _).map String.mk = t.todoistId
    rw [scan_id_taskBody t.content.data mname t.priority (t.dueDate.map String.data)
      (t.todoistId.map String.data) hmw hdd2 hid2 hClt]
    cases t.todoistId <;> rfl
  · show (extractDueDate _).map String.mk = t.dueDate
    rw [extractDueDate_taskBody t.content.data mname t.priority
      (t.dueDate.map String.data) (t.todoistId.map String.data) hmw hdd2 hid2
      hCdue hCsched htd]
    cases t.dueDate <;> rfl
  · show extractPriority _ = t.priority
    exact extractPriority_taskBody t.content.data mname t.priority
      (t.dueDate.map String.data) (t.todoistId.map String.data) hmw hdd2 hid2
      hChigh hCmed hClow
  · show (extractLabels _ ('#' :: mname)).map String.mk = t.labels
    rw [extractLabels_taskBody t.content.data mname t.priority
      (t.dueDate.map String.data) (t.todoistId.map String.data) hm1 hmw hdd2 hid2
      hCsharp]
    simp [hlab]

/-- C1 counterexample: a task carrying the label `home` (and content
`Call mom`) does not round trip: `buildTaskLine` serializes the label as a
hashtag, `cleanTaskContent` does not strip label hashtags, and the reparsed
content is `Call mom #home`, not `Call mom`.  This refutes the unrestricted
round-trip claim for the content field. -/
theorem parse_build_labels_counterexample :
    (parseTaskLine (buildTaskLine fixLabelTask (String.mk ('#' :: fixMarkerName))) 0 ""
      (String.mk ('#' :: fixMarkerName)) 0).map ParsedObsidianTask.content
    ≠ some fixLabelTask.content := by
  decide

/-- Witness: the amended C1 round-trip theorem applied to the concrete task
`fixRoundTask` (completed, priority HIGH, due 2024-01-15, identifier 12345,
no labels) with the sync tag `#todoist`. -/
theorem parse_build_roundtrip_witness :
    ∃ t2, parseTaskLine (buildTaskLine fixRoundTask (String.mk ('#' :: fixMarkerName)))
        3 "a.md" (String.mk ('#' :: fixMarkerName)) 7 = some t2 ∧
      t2.content = fixRoundTask.content ∧ t2.isCompleted = fixRoundTask.isCompleted ∧
      t2.todoistId = fixRoundTask.todoistId ∧ t2.dueDate = fixRoundTask.dueDate ∧
      t2.priority = fixRoundTask.priority ∧ t2.labels = fixRoundTask.labels :=
  parse_build_roundtrip fixRoundTask fixMarkerName 3 "a.md" 7
    (by decide) (by decide) rfl (by decide)
    (by
      intro c hc
      have h2 : some 'C' = some c := hc
      injection h2 with h3
      subst h3
      decide)
    (by decide) (by decide) (by decide) (by decide) (by decide) (by decide)
    (by decide) (by decide) (by decide) (by decide) (by decide) (by decide)
    (by
      intro d h
      have h2 : some "2024-01-15" = some d := h
      injection h2 with h3
      subst h3
      decide)
    (by
      intro i h
      have h2 : some "12345" = some i := h
      injection h2 with h3
      subst h3
      exact ⟨by decide, by decide⟩)

end Syncist
